import Mathlib

set_option linter.unusedSectionVars false

/-!
# Verification of the Highcharts Series data-pipeline core

This file gives a shallow embedding, in Lean 4, of the data-series engine of
`src/ts/Core/Series/Series.ts`: parallel-array maintenance
(`updateParallelArrays`), the `setData` turbo/generic ingestion paths,
`sortData`, `getProcessedData`/`cropData`, `generatePoints`,
`addPoint`/`removePoint`, and the k-d tree (`buildKDTree`/`searchKDTree`).
Pixel/float values are modelled as elements of an arbitrary linearly
ordered commutative ring (every operation the modelled code performs on
them — addition, subtraction, multiplication, comparison — stays inside
one); JavaScript arrays are modelled
as Lean lists, with explicit models of the array primitives used by the code
(index assignment, `splice`, `shift`, and the ES2019-stable `Array#sort`).
Distances in the k-d tree are modelled by their squares: `Math.sqrt` is
strictly monotone on nonnegative values, so every comparison made by the
code has the same outcome on the squared values and the returned point is
identical.
-/

namespace HC

variable {K : Type} [LinearOrderedCommRing K]

/-! ## JavaScript array primitives

The code mutates arrays through three primitives: indexed assignment
(`a[i] = v`, which extends the array when `i ≥ a.length`), `splice`, and
`shift`.  JavaScript fills the gap created by an out-of-bounds assignment
with holes; we model a possibly-holey cell by an `Option` when it matters.
`jsSplice start deleteCount items` follows the ECMAScript clamping rules
for nonnegative arguments: the start index is clamped to the length, the
delete count to the number of elements after the start. -/

/-- Model of the JavaScript indexed assignment `a[i] = v` (with `pad` standing
for the holes JavaScript would create past the end of the array). -/
def jsWriteAt (pad : α) (l : List α) (i : Nat) (v : α) : List α :=
  if i < l.length then l.set i v
  else l ++ List.replicate (i - l.length) pad ++ [v]

/-- Model of `Array.prototype.splice(start, deleteCount, ...items)` for
nonnegative `start`, with ECMAScript clamping of both arguments. -/
def jsSplice (l : List α) (start deleteCount : Nat) (items : List α) : List α :=
  let s := min start l.length
  l.take s ++ items ++ l.drop (s + deleteCount)

/-- Model of `Array.prototype.shift()` (the resulting array). -/
def jsShift (l : List α) : List α := l.tail

/-- The boolean ordering induced by a JavaScript sort comparator: `a` may be
placed before `b` exactly when the comparator does not require the opposite
order. -/
def cmpLe (cmp : α → α → Int) : α → α → Bool :=
  fun a b => cmp a b ≤ 0

/-- Model of the ES2019 `Array.prototype.sort(cmp)`.  For a consistent
comparator the specification requires a stable sort, and stability plus
sortedness determines the output uniquely; we realise it with the stable
`List.mergeSort`. -/
def jsSort (cmp : α → α → Int) (l : List α) : List α :=
  l.mergeSort (cmpLe cmp)

/-! ## Raw point options and point entities

A raw data entry handed to `setData`/`addPoint` is a plain number, a pair
array `[x, y]`, a structured object, or `null`.  (String values and holes in
the incoming array are not modelled; no claim depends on them.) -/

/-- A raw data entry (`PointOptions | PointShortOptions` in the source). -/
inductive PointOpt (K : Type) where
  /-- a plain number, interpreted as a y-value -/
  | num (y : K)
  /-- a pair array `[x, y]` -/
  | arr2 (a b : K)
  /-- a structured object with optional `x` and `y` members -/
  | obj (x : Option K) (y : Option K)
  /-- a `null` entry (a gap) -/
  | nullOpt
deriving DecidableEq

/-- A materialized `Point` entity, reduced to the fields the claims are
about: its backing x value, its `index` in `series.data`, its pixel
position `plotX` (`none` when not translated), and the flags recording that
its rendered elements resp. the point itself have been destroyed. -/
structure MPoint (K : Type) where
  xVal : K
  index : Nat
  plotX : Option K
  elementsDestroyed : Bool
  destroyed : Bool
deriving DecidableEq

/-- The slice of mutable `Series` state that the data-update claims are
about: the parallel arrays `xData`/`yData`, the raw `options.data`, the
sparse materialized `data` array, and the visible `points` array.  `yData`
cells hold the raw JavaScript values the code stores there, hence
`PointOpt` (the turbo number path stores the raw entries themselves). -/
structure SState (K : Type) where
  xData : List K
  yData : List (PointOpt K)
  optionsData : List (PointOpt K)
  dataArr : List (Option (MPoint K))
  points : List (Option (MPoint K))
deriving DecidableEq

/-! ## autoIncrement and point-option conversion -/

/-- Model of `Series#autoIncrement` without `pointIntervalUnit` (the
calendar-aware variant goes through the host `Date`): returns the x value to
use and the updated `xIncrement` cursor.  `xIncrement = none` models the
reset state (`null`); `pointStart`/`pointInterval` default to `0`/`1` via
`pick`. -/
def autoIncrement (xIncrement : Option K) (pointStart : Option K)
    (pointInterval : K) : K × Option K :=
  let x := xIncrement.getD (pointStart.getD 0)
  (x, some (x + pointInterval))

/-- Modelled from the spec: `Point#applyOptions`/`optionsToObject` (the Point
class is not part of `src/`); per the spec, the generic path applies the
structured-object-to-`{x, y}` conversion and auto-increments x when no x
value is given.  Returns `((x, y), updated xIncrement)`. -/
def applyOptions (xIncrement : Option K) (pointStart : Option K)
    (pointInterval : K) : PointOpt K → (K × Option K) × Option K
  | .num n =>
      let (x, xInc) := autoIncrement xIncrement pointStart pointInterval
      ((x, some n), xInc)
  | .arr2 a b => ((a, some b), xIncrement)
  | .obj (some x) y => ((x, y), xIncrement)
  | .obj none y =>
      let (x, xInc) := autoIncrement xIncrement pointStart pointInterval
      ((x, y), xInc)
  | .nullOpt =>
      let (x, xInc) := autoIncrement xIncrement pointStart pointInterval
      ((x, none), xInc)

/-- Model of `Series#getFirstValidPoint`: the first entry that is not
`null`; `none` when the list is exhausted (the source returns `null`). -/
def getFirstValidPoint : List (PointOpt K) → Option (PointOpt K)
  | [] => none
  | .nullOpt :: t => getFirstValidPoint t
  | p :: _ => some p

/-! ## setData: turbo and generic ingestion paths

`setData` (lines 3686-3844) first empties every parallel array, then fills
`xData`/`yData` either on the turbo fast path (raw length above
`turboThreshold`: numbers, or pair arrays, with error 12 for any other first
valid entry) or on the generic per-point path (`applyOptions` followed by
`updateParallelArrays` per entry), then unconditionally resets
`series.data`, installs the raw array as `options.data` and destroys the
old points.  Errors are collected as a list of Highcharts error codes. -/

/-- The turbo number loop: `xData[i] = this.autoIncrement(); yData[i] =
data[i]` — note it stores the raw entry itself into `yData`. -/
def turboNumberLoop (pointStart : Option K) (pointInterval : K) :
    Option K → List (PointOpt K) → List K × List (PointOpt K)
  | _, [] => ([], [])
  | xInc, d :: t =>
      let (x, xInc) := autoIncrement xInc pointStart pointInterval
      let (xs, ys) := turboNumberLoop pointStart pointInterval xInc t
      (x :: xs, d :: ys)

/-- The first cell of a pair-array entry as read by the turbo array loop
(`pt[0]`).  On a non-array entry the code would read `undefined`;
heterogeneous turbo input is outside every claim, and the placeholder `0`
stands for that unspecified value. -/
def entryCell0 : PointOpt K → K
  | .arr2 a _ => a
  | _ => 0

/-- The second cell of a pair-array entry as read by the turbo array loop
(`pt[1]`), as the raw value stored into `yData`; `nullOpt` stands for the
`undefined` read off a non-array entry (outside every claim). -/
def entryCell1 : PointOpt K → PointOpt K
  | .arr2 _ b => .num b
  | _ => .nullOpt

/-- The turbo pair-array loop (no `pointArrayMap`, no `keys` option, hence
`indexOfX = 0`, `indexOfY = 1`): `xData[i] = pt[0]; yData[i] = pt[1]`. -/
def turboArrayLoop (data : List (PointOpt K)) : List K × List (PointOpt K) :=
  (data.map entryCell0, data.map entryCell1)

/-- The generic per-point path: per entry, build a point via `applyOptions`
and write its x/y into the parallel arrays (`updateParallelArrays` with a
numeric index); the auto-increment cursor is threaded through. -/
def genericLoop (pointStart : Option K) (pointInterval : K) :
    Option K → List (PointOpt K) → List K × List (PointOpt K)
  | _, [] => ([], [])
  | xInc, d :: t =>
      let ((x, y), xInc) := applyOptions xInc pointStart pointInterval d
      let (xs, ys) := genericLoop pointStart pointInterval xInc t
      (x :: xs, (y.elim PointOpt.nullOpt PointOpt.num) :: ys)

/-- The configuration options `setData` reads. -/
structure SDConfig (K : Type) where
  turboThreshold : Nat
  pointStart : Option K
  pointInterval : Option K

/-- Model of the structural-replace branch of `Series#setData` (the branch
taken when the cheap `updateData` pass is not attempted or fails): resets
`xIncrement`, empties the parallel arrays, runs the turbo or generic fill,
resets `series.data`, installs the raw array as `options.data`, and
destroys the old points.  Returns the new state together with the list of
reported error codes.  Note that on the turbo format error (code 12) the
function still replaces `options.data` and resets the arrays: the error is
reported with `stop = false` and execution continues. -/
def setDataReplace (cfg : SDConfig K) (s : SState K)
    (data : List (PointOpt K)) : SState K × List Nat :=
  let interval := cfg.pointInterval.getD 1
  let filled : (List K × List (PointOpt K)) × List Nat :=
    if cfg.turboThreshold ≠ 0 ∧ data.length > cfg.turboThreshold then
      match getFirstValidPoint data with
      | some (.num _) => (turboNumberLoop cfg.pointStart interval none data, [])
      | some (.arr2 _ _) => (turboArrayLoop data, [])
      | _ => ((([], []) : List K × List (PointOpt K)), [12])
    else
      (genericLoop cfg.pointStart interval none data, [])
  ({ xData := filled.1.1
     yData := filled.1.2
     optionsData := data
     dataArr := []
     points := s.points.map (Option.map fun p => { p with destroyed := true }) },
   filled.2)

/-! ## getProcessedData: cropping and the closest-point scan -/

/-- `a < b` for a possibly-`undefined` left operand: in JavaScript any
comparison with `undefined` is false. -/
def optValLt (a : Option K) (b : K) : Bool :=
  match a with
  | some v => decide (v < b)
  | none => false

/-- `a > b` for a possibly-`undefined` left operand. -/
def optValGt (a : Option K) (b : K) : Bool :=
  match a with
  | some v => decide (b < v)
  | none => false

/-- The result object of `Series#cropData`. -/
structure CropDataObject (K : Type) (α : Type) where
  xData : List K
  yData : List α
  start : Nat
  stop : Nat
deriving DecidableEq

/-- Model of `Series#cropData` (lines 4097-4135): scan up for the first
index with `xData[i] >= min` (else `cropStart = 0`), scan on from there for
the first index with `xData[j] > max` (else `cropEnd = dataLength`), expand
both by `cropShoulder`, and slice both arrays. -/
def cropData (xData : List K) (yData : List α) (mn mx : K)
    (cropShoulder : Nat) : CropDataObject K α :=
  let dataLength := xData.length
  let i := xData.findIdx fun x => decide (mn ≤ x)
  let cropStart := if i < dataLength then i - cropShoulder else 0
  let j := i + ((xData.drop i).findIdx fun x => decide (mx < x))
  let cropEnd := if j < dataLength then j + cropShoulder else dataLength
  { xData := (xData.take cropEnd).drop cropStart
    yData := (yData.take cropEnd).drop cropStart
    start := cropStart
    stop := cropEnd }

/-- The closest-point scan of `getProcessedData` (lines 4010-4036), running
the loop counter `i` down from `dataLength - 1` to `1`: a positive delta
may lower `closestPointRange`; a negative delta, while the warn flag is
still set, reports error 15 and clears the flag.  Returns the final
`closestPointRange` and the number of error-15 reports. -/
def closestLoopAux (xs : List K) : Nat → Option K → Bool → Option K × Nat
  | 0, cpr, _ => (cpr, 0)
  | i + 1, cpr, warn =>
      let d := xs.getD (i + 1) 0 - xs.getD i 0
      let improves : Bool :=
        decide (0 < d) && (match cpr with
          | none => true
          | some c => decide (d < c))
      if improves then closestLoopAux xs i (some d) warn
      else if decide (d < 0) && warn then
        let (c, n) := closestLoopAux xs i cpr false
        (c, n + 1)
      else closestLoopAux xs i cpr warn

/-- Entry point of the closest-point scan: the warn flag starts as
`series.requireSorting`. -/
def closestLoop (xs : List K) (requireSorting : Bool) : Option K × Nat :=
  closestLoopAux xs (xs.length - 1) none requireSorting

/-- The result object of `Series#getProcessedData`, extended with the
number of unsorted-data reports the pass made. -/
structure ProcessedData (K : Type) where
  xData : List K
  yData : List (PointOpt K)
  cropped : Bool
  cropStart : Nat
  closestPointRange : Option K
  errorCount : Nat
deriving DecidableEq

/-- Model of `Series#getProcessedData` (lines 3933-4045) on a linear axis
with extremes `[mn, mx]`: data fully outside the extremes yields empty
processed arrays; data partially spilling out is cropped via `cropData`;
otherwise the arrays pass through untouched.  The crop branch requires a
cartesian series with sorted data whose length exceeds `cropThreshold`
(a zero threshold or `forceCrop` also enable it) and no
`getExtremesFromAll`.  The closest-point scan then runs on the processed
x values. -/
def getProcessedData (xData : List K) (yData : List (PointOpt K)) (mn mx : K)
    (isCartesian sorted getExtremesFromAll forceCrop requireSorting : Bool)
    (cropThreshold cropShoulder : Nat) : ProcessedData K :=
  let dataLength := xData.length
  let cropBranch : List K × List (PointOpt K) × Bool × Nat :=
    if isCartesian && sorted && !getExtremesFromAll &&
        (decide (cropThreshold = 0) || decide (dataLength > cropThreshold) ||
          forceCrop) then
      if optValLt xData[dataLength - 1]? mn || optValGt xData[0]? mx
      then ([], [], false, 0)
      else if optValLt xData[0]? mn ||
          optValGt xData[dataLength - 1]? mx then
        let c := cropData xData yData mn mx cropShoulder
        (c.xData, c.yData, true, c.start)
      else (xData, yData, false, 0)
    else (xData, yData, false, 0)
  let scan := closestLoop cropBranch.1 requireSorting
  { xData := cropBranch.1
    yData := cropBranch.2.1
    cropped := cropBranch.2.2.1
    cropStart := cropBranch.2.2.2
    closestPointRange := scan.1
    errorCount := scan.2 }

/-! ## generatePoints (non-grouped)

`generatePoints` (lines 4144-4302) walks the processed range, reusing the
point materialized at the unshifted position `cropStart + i` when present,
creating one when the raw option is defined, and recording the point (with
its `index` set to the raw position) in the dense `points` array.  A point
object is shared between `data[cursor]` and `points[i]`; the model writes
the updated value to both places.  `points[i]` is left unassigned (a hole)
when neither an existing point nor a raw option is available; the model
records the hole as `none`, so the model's `points` length can only
overestimate the JavaScript array length.  Afterwards, when the processed
range does not cover all of `data`, every materialized point outside the
range has its rendered elements destroyed and its `plotX` cleared. -/

/-- Modelled from the spec: `Point#init` (the Point class is not part of
`src/`) — a fresh point carrying the supplied x value, not yet translated
and with live elements; `index` is assigned by `generatePoints` itself. -/
def pointInit (x : K) : MPoint K :=
  { xVal := x, index := 0, plotX := none
    elementsDestroyed := false, destroyed := false }

/-- The cell `generatePoints` produces at raw position `cursor` for the
processed x value `x`: the existing point at the unshifted position if any,
else a fresh point when the raw option there is defined; in both cases the
(shared, mutable) point object ends up with `index = cursor`. -/
def genCell (dataOptions : List (PointOpt K)) (data : List (Option (MPoint K)))
    (cursor : Nat) (x : K) : Option (MPoint K) :=
  match data.getD cursor none with
  | some p => some { p with index := cursor }
  | none =>
      match dataOptions[cursor]? with
      | some _ => some { pointInit x with index := cursor }
      | none => none

/-- The main loop of `generatePoints`: for each processed index `i` with
x value `x`, compute the cell for `cursor = cropStart + i`, record it in
`data` (point objects are shared between `data[cursor]` and `points[i]`,
so the `index` mutation is visible in both) and append it to `points`;
`points[i]` stays a hole when there is no point. -/
def genLoop (dataOptions : List (PointOpt K)) (cropStart : Nat) :
    List (Nat × K) → List (Option (MPoint K)) → List (Option (MPoint K)) →
    List (Option (MPoint K)) × List (Option (MPoint K))
  | [], data, points => (data, points)
  | (i, x) :: rest, data, points =>
      let cursor := cropStart + i
      match genCell dataOptions data cursor x with
      | some p =>
          genLoop dataOptions cropStart rest
            (jsWriteAt none data cursor (some p)) (points ++ [some p])
      | none => genLoop dataOptions cropStart rest data (points ++ [none])

/-- Clearing the rendered state of one cell (`destroyElements()` together
with `plotX = void 0`). -/
def releaseCell : Option (MPoint K) → Option (MPoint K) :=
  Option.map fun p => { p with elementsDestroyed := true, plotX := none }

/-- The hide-cropped-away-points loop of `generatePoints` (lines 4250-4267,
non-grouped): a counter runs over `data`, jumping from `cropStart` to
`cropStart + processedLen` so the processed window is skipped, and releases
the rendered state of every cell it visits. -/
def releaseLoop (cropStart processedLen dataLength : Nat) :
    Nat → List (Option (MPoint K)) → List (Option (MPoint K))
  | i, data =>
      if h : i < dataLength then
        let j := if i = cropStart then i + processedLen else i
        releaseLoop cropStart processedLen dataLength (j + 1)
          (data.set j (releaseCell (data.getD j none)))
      else data
termination_by i => dataLength - i
decreasing_by
  have hj : i ≤ j := by simp only [j]; split <;> omega
  omega

/-- Model of `Series#generatePoints` for a non-grouped series: returns the
new `series.data` and `series.points`.  `data0 = none` models a series
whose `data` array has not been created yet (it is then allocated with the
length of the raw options). -/
def generatePoints (dataOptions : List (PointOpt K))
    (data0 : Option (List (Option (MPoint K)))) (processedXData : List K)
    (cropStart : Nat) : List (Option (MPoint K)) × List (Option (MPoint K)) :=
  let data := data0.getD (List.replicate dataOptions.length none)
  let res := genLoop dataOptions cropStart processedXData.enum data []
  let dataLength := res.1.length
  let data :=
    if processedXData.length ≠ dataLength then
      releaseLoop cropStart processedXData.length dataLength 0 res.1
    else res.1
  (data, res.2)

/-! ## updateParallelArrays

`updateParallelArrays` (lines 3034-3059) either writes one point's
per-dimension values at a numeric index, or applies one array method with
identical arguments to every dimension array.  The dimension arrays are
modelled as a list of arrays of possibly-absent values. -/

/-- An array-method application forwarded to every parallel array (the code
uses `splice` and `shift`). -/
inductive ArrayMethod (K : Type) where
  | splice (start deleteCount : Nat) (items : List (Option K))
  | shift

/-- One `updateParallelArrays` call: an indexed write of the point's
per-dimension values (`vals k` is `point[key]` for dimension `k`), or an
array method applied in lockstep. -/
inductive ParallelOp (K : Type) where
  | idx (i : Nat) (vals : Nat → Option K)
  | method (m : ArrayMethod K)

/-- Applying one array method to one dimension array. -/
def applyArrayMethod (m : ArrayMethod K) (arr : List (Option K)) :
    List (Option K) :=
  match m with
  | .splice s d items => jsSplice arr s d items
  | .shift => jsShift arr

/-- Model of `Series#updateParallelArrays`: the chosen function is applied
to every declared dimension array. -/
def updateParallelArrays (arrays : List (List (Option K)))
    (op : ParallelOp K) :
    List (List (Option K)) :=
  match op with
  | .idx i vals => arrays.mapIdx fun k arr => jsWriteAt none arr i (vals k)
  | .method m => arrays.map (applyArrayMethod m)

/-! ## addPoint and removePoint -/

/-- The backward scan of `Series#addPoint` for the insertion index:
`while (i && xData[i - 1] > x) i--`. -/
def addPointIndexLoop (xData : List K) (x : K) : Nat → Nat
  | 0 => 0
  | i + 1 =>
      if (match xData[i]? with
          | some v => decide (x < v)
          | none => false) then
        addPointIndexLoop xData x i
      else i + 1

/-- The `isInTheMiddle` test of `addPoint`: sorting is required and the new
x value is below the last x in the series (`x < xData[i - 1]`; the
comparison with `undefined` on an empty series is false). -/
def addPointIsMiddle (xData : List K) (x : K) (requireSorting : Bool) :
    Bool :=
  requireSorting &&
    (match xData[xData.length - 1]? with
     | some v => decide (x < v)
     | none => false)

/-- The insertion index `addPoint` resolves: the end of the series, or the
result of the backward scan when inserting in the middle. -/
def addPointIndex (xData : List K) (x : K) (requireSorting : Bool) : Nat :=
  if addPointIsMiddle xData x requireSorting then
    addPointIndexLoop xData x xData.length
  else xData.length

/-- Model of `Series#addPoint` (lines 6317-6398) without `shift`: resolve
the insertion index (scanning backward when sorting requires it), splice a
placeholder `0` into every parallel array and overwrite it with the point's
values, splice the raw options, and when inserting in the middle splice a
`null` into `series.data` (`processData`, also called then, touches only
the processed arrays, which are not part of this state).  `x`/`yv` are the
applied point's values (`applyOptions` output) and `opt` the raw entry.
Returns the new state and the insertion index. -/
def addPoint (s : SState K) (requireSorting : Bool) (x : K)
    (yv : PointOpt K) (opt : PointOpt K) : SState K × Nat :=
  let isInTheMiddle := addPointIsMiddle s.xData x requireSorting
  let i := addPointIndex s.xData x requireSorting
  ({ s with
      xData := jsWriteAt 0 (jsSplice s.xData i 0 [0]) i x
      yData := jsWriteAt .nullOpt (jsSplice s.yData i 0 [.num 0]) i yv
      optionsData := jsSplice s.optionsData i 0 [opt]
      dataArr := if isInTheMiddle then jsSplice s.dataArr i 0 [none]
        else s.dataArr },
   i)

/-- Model of `Series#removePoint` (lines 6427-6473; the default `remove`
handler always runs): `points` is spliced only when its length matches
`data`, while `data`, `options.data` and the parallel arrays are spliced
unconditionally.  The destruction of the removed point object is not
propagated into `points` cells: the `points` array itself is untouched. -/
def removePoint (s : SState K) (i : Nat) : SState K :=
  { xData := jsSplice s.xData i 1 []
    yData := jsSplice s.yData i 1 []
    optionsData := jsSplice s.optionsData i 1 []
    dataArr := jsSplice s.dataArr i 1 []
    points := if s.points.length = s.dataArr.length then jsSplice s.points i 1 []
      else s.points }

/-! ## sortData -/

/-- An option object during `sortData`, after `getPointOptionsObject` and
the `index` tagging of lines 3874-3877. -/
structure SortEntry (K : Type) where
  x : Option K
  y : Option K
  index : Nat
deriving DecidableEq

/-- The JavaScript `<` on the values `getNestedProperty` returns for the
default sort key `y`: comparisons involving `undefined` are false. -/
def jsLt (a b : Option K) : Bool :=
  match a, b with
  | some a, some b => decide (a < b)
  | _, _ => false

/-- Modelled from the spec: `optionsToObject` (the Point class is not part
of `src/`) — a number is a y value, a pair array is `[x, y]`, an object
supplies its own members; `getPointOptionsObject` maps an undefined or
`null` entry to the empty object. -/
def optionsToEntry : PointOpt K → Option K × Option K
  | .num n => (none, some n)
  | .arr2 a b => (some a, some b)
  | .obj x y => (x, y)
  | .nullOpt => (none, none)

/-- The comparator of `Series#sortData` (line 3880-3884) for the default
sort key `y`: `bValue < aValue ? -1 : bValue > aValue ? 1 : 0`. -/
def sortDataCmp (a b : SortEntry K) : Int :=
  if jsLt b.y a.y then -1 else if jsLt a.y b.y then 1 else 0

/-- Model of `Series#sortData` with `sortKey = y` (its default), up to the
point where every entry's `x` has been reassigned: entries are converted to
option objects tagged with their original index, stably sorted by the
descending comparator, and `x := position-in-sorted-order` is written into
each entry.  The source returns the same (mutated) entries in original
array order; the claims are about the sorted sequence, which this model
returns. -/
def sortData (data : List (PointOpt K)) : List (SortEntry K) :=
  let tagged := data.mapIdx fun i o =>
    let e := optionsToEntry o
    SortEntry.mk e.1 e.2 i
  let sorted := jsSort sortDataCmp tagged
  sorted.mapIdx fun i e => { e with x := some (i : K) }

/-- The tagged option objects `sortData` builds before sorting (lines
3874-3877), exposed for the stability statements. -/
def sortDataTagged (data : List (PointOpt K)) : List (SortEntry K) :=
  data.mapIdx fun i o =>
    let e := optionsToEntry o
    SortEntry.mk e.1 e.2 i

/-! ## The k-d tree

`buildKDTree` (lines 5945-6021) recursively partitions the point list,
sorting by the axis selected from `kdAxisArray = [clientX, plotY]` by depth
modulo the dimension count, taking the median of the sorted slice as the
node and recursing on the two remaining slices.  Both the build and the
search start at `depth = dimensions`.  `searchKDTree` (lines 6027-6125)
descends into the side of the splitting plane nearer to the query,
backtracks into the far side only when the distance to the plane is below
the current best comparison value, and compares candidates by `dist`
(full distance) or `distX` (x-only) according to `compareX`.  The code
compares square roots of sums of squares (`Math.sqrt`); since the square
root is strictly monotone on nonnegative values, every comparison is
modelled on the squared values, with an identical returned point. -/

/-- A k-d tree point: the pixel coordinates used by the spatial index. -/
structure KDPoint (K : Type) where
  clientX : K
  plotY : K
deriving DecidableEq

/-- `point[kdAxisArray[depth % dimensions]]`. -/
def kdAxisVal (dims depth : Nat) (p : KDPoint K) : K :=
  if depth % dims = 0 then p.clientX else p.plotY

/-- A k-d tree node; `nil` models the `undefined` children of the source. -/
inductive KDTree (K : Type) where
  | nil
  | node (left : KDTree K) (point : KDPoint K) (right : KDTree K)
deriving DecidableEq

/-- All points stored in a tree. -/
def KDTree.toList : KDTree K → List (KDPoint K)
  | .nil => []
  | .node l p r => l.toList ++ p :: r.toList

/-- The sort comparator of `_kdtree` at one depth: the source returns the
rational difference `a[axis] - b[axis]`, of which the sort consumes only
the sign, modelled here directly. -/
def kdCmp (dims depth : Nat) (a b : KDPoint K) : Int :=
  if kdAxisVal dims depth a < kdAxisVal dims depth b then -1
  else if kdAxisVal dims depth b < kdAxisVal dims depth a then 1
  else 0

/-- The recursive `_kdtree` build: sort by the depth's axis, take the
median (`Math.floor(length / 2)`) as the node, recurse on the slices
before and after it. -/
def buildKDTreeRec (dims : Nat) : Nat → List (KDPoint K) → KDTree K
  | _, [] => .nil
  | depth, pt :: rest =>
      let sorted := jsSort (kdCmp dims depth) (pt :: rest)
      let m := sorted.length / 2
      .node (buildKDTreeRec dims (depth + 1) (sorted.take m))
        (sorted.getD m ⟨0, 0⟩)
        (buildKDTreeRec dims (depth + 1) (sorted.drop (m + 1)))
termination_by _ pts => pts.length
decreasing_by
  · simp only [sorted, jsSort, List.length_take, List.length_mergeSort,
      List.length_cons, m]
    omega
  · simp only [sorted, jsSort, List.length_drop, List.length_mergeSort,
      List.length_cons, m]
    omega

/-- `Series#buildKDTree`: the recursion starts at `depth = dimensions`. -/
def buildKDTree (dims : Nat) (pts : List (KDPoint K)) : KDTree K :=
  buildKDTreeRec dims dims pts

/-- The squared full distance between query and point (`setDistance`
computes `dist = sqrt(dx^2 + dy^2)`; both coordinates of the query are
defined, as they are for every query issued by `searchPoint`). -/
def distSq (q p : KDPoint K) : K :=
  (q.clientX - p.clientX) ^ 2 + (q.plotY - p.plotY) ^ 2

/-- The squared x-only distance (`distX = sqrt(dx^2)`), the comparison
value used when `compareX` is set. -/
def distXSq (q p : KDPoint K) : K :=
  (q.clientX - p.clientX) ^ 2

/-- The candidate update of `_search`
(`ret = nPoint[kdComparer] < ret[kdComparer] ? nPoint : ret`): keep the
subtree result when it exists and improves on the current best.  A `none`
candidate models the `if (tree[side])` guard around each recursion. -/
def kdBest (metric : KDPoint K → KDPoint K → K) (q : KDPoint K)
    (cand : Option (KDPoint K)) (cur : KDPoint K) : KDPoint K :=
  match cand with
  | some n => if metric q n < metric q cur then n else cur
  | none => cur

/-- The recursive `_search`, parameterized by the squared comparison metric
(`dist` or `distX`): descend into the nearer side, take its result when it
improves on the node, and enter the far side only when the squared distance
to the splitting plane is below the current best (the source compares
`Math.sqrt(tdist * tdist)` with the best square root; squaring both sides
preserves the outcome). -/
def searchKD (dims : Nat) (metric : KDPoint K → KDPoint K → K)
    (q : KDPoint K) : KDTree K → Nat → Option (KDPoint K)
  | .nil, _ => none
  | .node l p r, depth =>
      let tdist := kdAxisVal dims depth q - kdAxisVal dims depth p
      let ret := kdBest metric q
        (if tdist < 0 then searchKD dims metric q l (depth + 1)
          else searchKD dims metric q r (depth + 1)) p
      let ret := if tdist ^ 2 < metric q ret then
          kdBest metric q
            (if tdist < 0 then searchKD dims metric q r (depth + 1)
              else searchKD dims metric q l (depth + 1)) ret
        else ret
      some ret

/-- `Series#searchKDTree` on an already-built tree: the search starts at
`depth = dimensions`. -/
def searchKDTree (dims : Nat) (metric : KDPoint K → KDPoint K → K)
    (q : KDPoint K) (t : KDTree K) : Option (KDPoint K) :=
  searchKD dims metric q t dims

/-- Well-formedness of a k-d tree at a depth: every point in the left
subtree lies at or before the node on the depth's axis, every point in the
right subtree at or after it, recursively with increasing depth.  This is
the invariant `_kdtree`'s median-of-sorted-slice construction guarantees. -/
inductive KDWF (dims : Nat) : Nat → KDTree K → Prop where
  | nil : ∀ d, KDWF dims d .nil
  | node : ∀ d l p r,
      (∀ x ∈ l.toList, kdAxisVal dims d x ≤ kdAxisVal dims d p) →
      (∀ x ∈ r.toList, kdAxisVal dims d p ≤ kdAxisVal dims d x) →
      KDWF dims (d + 1) l → KDWF dims (d + 1) r →
      KDWF dims d (.node l p r)

/-! ## Specification-side predicates used by the theorem statements -/

/-- The parallel-array invariant: all declared dimension arrays have the
same length. -/
def sameLengths (arrays : List (List (Option K))) : Prop :=
  ∀ a ∈ arrays, ∀ b ∈ arrays, a.length = b.length

/-- Some pair of consecutive x values is strictly decreasing (a negative
delta somewhere in the list). -/
def hasNegDelta (xs : List K) : Bool :=
  (List.range (xs.length - 1)).any fun k =>
    decide (xs.getD (k + 1) 0 < xs.getD k 0)

/-! # Theorems

First a collection of facts about the JavaScript array primitives, then the
claims, in order. -/

theorem length_jsWriteAt (pad : α) (l : List α) (i : Nat) (v : α) :
    (jsWriteAt pad l i v).length = max l.length (i + 1) := by
  unfold jsWriteAt
  split
  · simp only [List.length_set]
    omega
  · simp only [List.length_append, List.length_replicate, List.length_cons,
      List.length_nil]
    omega

theorem jsWriteAt_lt (pad : α) {l : List α} {i : Nat} (v : α)
    (h : i < l.length) : jsWriteAt pad l i v = l.set i v := by
  unfold jsWriteAt
  exact if_pos h

theorem length_jsSplice (l : List α) (s d : Nat) (items : List α) :
    (jsSplice l s d items).length =
      min s l.length + items.length + (l.length - (min s l.length + d)) := by
  unfold jsSplice
  simp only [List.length_append, List.length_take, List.length_drop]
  omega

theorem jsSplice_eraseIdx (l : List α) (i : Nat) :
    jsSplice l i 1 [] = l.eraseIdx i := by
  unfold jsSplice
  rcases lt_or_le i l.length with h | h
  · rw [min_eq_left (Nat.le_of_lt h), List.eraseIdx_eq_take_drop_succ]
    simp
  · rw [min_eq_right h, List.eraseIdx_eq_self.mpr h]
    simp only [List.take_length, List.append_nil, List.nil_append]
    rw [List.drop_eq_nil_of_le (by omega), List.append_nil]

theorem jsSplice_insert {l : List α} {i : Nat} (v : α) (h : i ≤ l.length) :
    jsSplice l i 0 [v] = l.take i ++ v :: l.drop i := by
  unfold jsSplice
  rw [min_eq_left h]
  simp

theorem jsWriteAt_insert (pad : α) {l : List α} {i : Nat} (v w : α)
    (h : i ≤ l.length) :
    jsWriteAt pad (jsSplice l i 0 [w]) i v = l.take i ++ v :: l.drop i := by
  rw [jsSplice_insert w h, jsWriteAt_lt pad v
    (by simp [List.length_append, List.length_take]; omega)]
  have htake : (l.take i).length = i := by simp; omega
  have hsplit : l.take i ++ w :: l.drop i = (l.take i ++ [w]) ++ l.drop i := by
    simp
  have hlen2 : i < (l.take i ++ w :: l.drop i).length := by
    simp only [List.length_append, List.length_cons, htake]
    omega
  have hlen3 : (l.take i ++ [w]).length = i + 1 := by
    simp only [List.length_append, List.length_cons, List.length_nil, htake]
  rw [List.set_eq_take_cons_drop v hlen2, List.take_left' htake, hsplit,
    List.drop_left' hlen3]

theorem jsSplice_remove_insert {l : List α} {i : Nat} (v : α)
    (h : i ≤ l.length) :
    jsSplice (l.take i ++ v :: l.drop i) i 1 [] = l := by
  have htake : (l.take i).length = i := by simp; omega
  rw [jsSplice_eraseIdx, List.eraseIdx_eq_take_drop_succ,
    List.take_left' htake,
    show l.take i ++ v :: l.drop i = (l.take i ++ [v]) ++ l.drop i by simp,
    List.drop_left' (by simp [htake]), List.take_append_drop]

/-! ### Claim C6: the parallel-array length invariant -/

theorem applyArrayMethod_length_congr (m : ArrayMethod K)
    {a b : List (Option K)} (h : a.length = b.length) :
    (applyArrayMethod m a).length = (applyArrayMethod m b).length := by
  cases m with
  | splice s d items => simp only [applyArrayMethod, length_jsSplice, h]
  | shift => simp only [applyArrayMethod, jsShift, List.length_tail, h]

/-- Claim C6: for every sequence of parallel-array operations (per-point
indexed writes and lockstep array-method applications) starting from
dimension arrays of equal lengths, all dimension arrays again have equal
lengths after each operation — a single `updateParallelArrays` call
preserves the invariant, hence so does every prefix of a call sequence. -/
theorem updateParallelArrays_sameLengths :
    (∀ (arrays : List (List (Option K))) (op : ParallelOp K),
      sameLengths arrays → sameLengths (updateParallelArrays arrays op)) ∧
    (∀ (arrays : List (List (Option K))) (ops : List (ParallelOp K)) (n : Nat),
      sameLengths arrays →
      sameLengths ((ops.take n).foldl updateParallelArrays arrays)) := by
  have single : ∀ (arrays : List (List (Option K))) (op : ParallelOp K),
      sameLengths arrays → sameLengths (updateParallelArrays arrays op) := by
    intro arrays op hsame
    cases op with
    | idx i vals =>
        intro a ha b hb
        simp only [updateParallelArrays, List.mem_mapIdx] at ha hb
        obtain ⟨ia, hia, rfl⟩ := ha
        obtain ⟨ib, hib, rfl⟩ := hb
        simp only [length_jsWriteAt]
        rw [hsame arrays[ia] (arrays.getElem_mem hia) arrays[ib]
          (arrays.getElem_mem hib)]
    | method m =>
        intro a ha b hb
        simp only [updateParallelArrays, List.mem_map] at ha hb
        obtain ⟨a0, ha0, rfl⟩ := ha
        obtain ⟨b0, hb0, rfl⟩ := hb
        exact applyArrayMethod_length_congr m (hsame a0 ha0 b0 hb0)
  refine ⟨single, fun arrays ops n hsame => ?_⟩
  have fold : ∀ (l : List (ParallelOp K)) (arrays : List (List (Option K))),
      sameLengths arrays → sameLengths (l.foldl updateParallelArrays arrays) := by
    intro l
    induction l with
    | nil => intro arrays h; exact h
    | cons op t ih =>
        intro arrays h
        exact ih _ (single arrays op h)
  exact fold (ops.take n) arrays hsame

/-- Witness for C6 at a concrete input: two dimension arrays of length two,
one indexed write. -/
theorem updateParallelArrays_sameLengths_witness :
    sameLengths (updateParallelArrays
      ([[some 1, some 2], [some 3, some 4]] : List (List (Option ℤ)))
      (.idx 5 fun _ => none)) :=
  updateParallelArrays_sameLengths.1
    ([[some 1, some 2], [some 3, some 4]] : List (List (Option ℤ)))
    (.idx 5 fun _ => none) (by unfold sameLengths; decide)

/-! ### Claim C10: removePoint with mismatched points/data lengths -/

/-- Claim C10: when `series.points.length` differs from
`series.data.length`, `removePoint i` leaves the `points` array unchanged,
while `data`, `options.data` and both parallel arrays have index `i`
removed. -/
theorem removePoint_points_untouched (s : SState K) (i : Nat)
    (h : s.points.length ≠ s.dataArr.length) :
    (removePoint s i).points = s.points ∧
    (removePoint s i).dataArr = s.dataArr.eraseIdx i ∧
    (removePoint s i).optionsData = s.optionsData.eraseIdx i ∧
    (removePoint s i).xData = s.xData.eraseIdx i ∧
    (removePoint s i).yData = s.yData.eraseIdx i := by
  unfold removePoint
  refine ⟨?_, by simp [jsSplice_eraseIdx], by simp [jsSplice_eraseIdx],
    by simp [jsSplice_eraseIdx], by simp [jsSplice_eraseIdx]⟩
  simp only [if_neg h]

/-- Witness for C10: a cropped-like state whose `points` array (empty) is
shorter than its `data` array. -/
theorem removePoint_points_untouched_witness :
    (removePoint ((SState.mk [1] [.num 2] [.num 2] [none] []) : SState ℤ) 0).points = [] ∧
    (removePoint ((SState.mk [1] [.num 2] [.num 2] [none] []) : SState ℤ) 0).dataArr = [] ∧
    (removePoint ((SState.mk [1] [.num 2] [.num 2] [none] []) : SState ℤ) 0).optionsData
      = [] ∧
    (removePoint ((SState.mk [1] [.num 2] [.num 2] [none] []) : SState ℤ) 0).xData = [] ∧
    (removePoint ((SState.mk [1] [.num 2] [.num 2] [none] []) : SState ℤ) 0).yData = [] :=
  removePoint_points_untouched ((SState.mk [1] [.num 2] [.num 2] [none] []) : SState ℤ) 0
    (by decide)

/-! ### Claim C8: the addPoint/removePoint round trip -/

theorem addPointIndexLoop_le (xs : List K) (x : K) :
    ∀ n, addPointIndexLoop xs x n ≤ n := by
  intro n
  induction n with
  | zero => exact Nat.le_refl 0
  | succ k ih =>
      unfold addPointIndexLoop
      split
      · exact Nat.le_trans ih (Nat.le_succ k)
      · exact Nat.le_refl _

theorem addPointIndex_le (xs : List K) (x : K) (rs : Bool) :
    addPointIndex xs x rs ≤ xs.length := by
  unfold addPointIndex
  split
  · exact addPointIndexLoop_le xs x _
  · exact Nat.le_refl _

theorem addPointIndex_lt_of_middle (xs : List K) (x : K) (rs : Bool)
    (h : addPointIsMiddle xs x rs = true) :
    addPointIndex xs x rs < xs.length := by
  unfold addPointIndex
  rw [if_pos h]
  unfold addPointIsMiddle at h
  have hm := (Bool.and_eq_true _ _).mp h |>.2
  cases hx : xs[xs.length - 1]? with
  | none => rw [hx] at hm; exact absurd hm (by simp)
  | some v =>
      rw [hx] at hm
      have hlen : 1 ≤ xs.length := by
        by_contra hc
        have hnil : xs = [] := by
          cases xs with
          | nil => rfl
          | cons a t => exact absurd (by simp) hc
        rw [hnil] at hx
        simp at hx
      obtain ⟨k, hk⟩ : ∃ k, xs.length = k + 1 := ⟨xs.length - 1, by omega⟩
      have hvx : x < v := by simpa using hm
      have hgk : xs[k]? = some v := by
        rw [← hx]
        congr 1
        omega
      rw [hk]
      simp only [addPointIndexLoop, hgk, hvx, decide_eq_true_eq, if_true]
      exact Nat.lt_succ_of_le (addPointIndexLoop_le xs x k)

/-- Claim C8 (amended): on a series whose parallel, raw-option and
materialized-data arrays agree in length (the documented steady-state
invariant), `addPoint` followed by `removePoint` at the insertion index
restores `xData`, `yData`, `options.data` and `series.data`. -/
theorem addPoint_removePoint_roundtrip (s : SState K) (rs : Bool) (x : K)
    (yv opt : PointOpt K) (hy : s.yData.length = s.xData.length)
    (ho : s.optionsData.length = s.xData.length)
    (hd : s.dataArr.length = s.xData.length) :
    (removePoint (addPoint s rs x yv opt).1
      (addPoint s rs x yv opt).2).xData = s.xData ∧
    (removePoint (addPoint s rs x yv opt).1
      (addPoint s rs x yv opt).2).yData = s.yData ∧
    (removePoint (addPoint s rs x yv opt).1
      (addPoint s rs x yv opt).2).optionsData = s.optionsData ∧
    (removePoint (addPoint s rs x yv opt).1
      (addPoint s rs x yv opt).2).dataArr = s.dataArr := by
  have hi : addPointIndex s.xData x rs ≤ s.xData.length :=
    addPointIndex_le s.xData x rs
  simp only [addPoint, removePoint]
  refine ⟨?_, ?_, ?_, ?_⟩
  · rw [jsWriteAt_insert 0 x 0 hi, jsSplice_remove_insert x hi]
  · rw [jsWriteAt_insert PointOpt.nullOpt yv (PointOpt.num 0) (hy ▸ hi),
      jsSplice_remove_insert yv (hy ▸ hi)]
  · rw [jsSplice_insert opt (ho ▸ hi), jsSplice_remove_insert opt (ho ▸ hi)]
  · by_cases hm : addPointIsMiddle s.xData x rs = true
    · have hlt := addPointIndex_lt_of_middle s.xData x rs hm
      rw [if_pos hm, jsSplice_insert none (by omega),
        jsSplice_remove_insert none (by omega)]
    · rw [if_neg hm, jsSplice_eraseIdx, List.eraseIdx_eq_self.mpr]
      have : addPointIndex s.xData x rs = s.xData.length := by
        unfold addPointIndex
        rw [if_neg hm]
      omega

/-- Counterexample for C8 as stated: with `requireSorting` and a
mid-series insertion on a series whose `data` array is empty (not yet
materialized), `series.data` grows from length 0 to 1 and the subsequent
`removePoint` at the insertion index does not shrink it back. -/
theorem addPoint_removePoint_counterexample :
    ((removePoint (addPoint ((SState.mk [10, 20] [.num 1, .num 2]
          [.num 1, .num 2] [] []) : SState ℤ) true 15 (.num 5) (.num 5)).1
        (addPoint ((SState.mk [10, 20] [.num 1, .num 2] [.num 1, .num 2]
          [] []) : SState ℤ) true 15 (.num 5) (.num 5)).2).dataArr.length = 1) ∧
    (((SState.mk [10, 20] [.num 1, .num 2] [.num 1, .num 2] [] [])
      : SState ℤ).dataArr |>.length) = 0 := by
  decide

/-- Witness for C8 at a concrete consistent state (a one-point series,
middle insertion). -/
theorem addPoint_removePoint_roundtrip_witness :
    (removePoint (addPoint ((SState.mk [1] [.num 1] [.num 1] [none] []) : SState ℤ)
        true 0 (.num 7) (.num 7)).1
      (addPoint ((SState.mk [1] [.num 1] [.num 1] [none] []) : SState ℤ)
        true 0 (.num 7) (.num 7)).2).xData = [1] ∧
    (removePoint (addPoint ((SState.mk [1] [.num 1] [.num 1] [none] []) : SState ℤ)
        true 0 (.num 7) (.num 7)).1
      (addPoint ((SState.mk [1] [.num 1] [.num 1] [none] []) : SState ℤ)
        true 0 (.num 7) (.num 7)).2).yData = [.num 1] ∧
    (removePoint (addPoint ((SState.mk [1] [.num 1] [.num 1] [none] []) : SState ℤ)
        true 0 (.num 7) (.num 7)).1
      (addPoint ((SState.mk [1] [.num 1] [.num 1] [none] []) : SState ℤ)
        true 0 (.num 7) (.num 7)).2).optionsData = [.num 1] ∧
    (removePoint (addPoint ((SState.mk [1] [.num 1] [.num 1] [none] []) : SState ℤ)
        true 0 (.num 7) (.num 7)).1
      (addPoint ((SState.mk [1] [.num 1] [.num 1] [none] []) : SState ℤ)
        true 0 (.num 7) (.num 7)).2).dataArr = [none] :=
  addPoint_removePoint_roundtrip ((SState.mk [1] [.num 1] [.num 1] [none] []) : SState ℤ)
    true 0 (.num 7) (.num 7) (by decide) (by decide) (by decide)

/-! ### Claim C2: the unsorted-data warning -/

theorem closestLoopAux_errors (xs : List K) :
    ∀ (i : Nat) (cpr : Option K) (warn : Bool),
      (closestLoopAux xs i cpr warn).2 =
        if warn = true ∧ ((List.range i).any fun k =>
            decide (xs.getD (k + 1) 0 < xs.getD k 0)) = true then 1 else 0 := by
  intro i
  induction i with
  | zero => intro cpr warn; simp [closestLoopAux]
  | succ k ih =>
      intro cpr warn
      simp only [closestLoopAux]
      by_cases himp : (decide (0 < xs.getD (k + 1) 0 - xs.getD k 0) &&
          (match cpr with
            | none => true
            | some c => decide (xs.getD (k + 1) 0 - xs.getD k 0 < c))) = true
      · rw [if_pos himp, ih]
        have hpos : (0:K) < xs.getD (k + 1) 0 - xs.getD k 0 := by
          have := ((Bool.and_eq_true _ _).mp himp).1
          simpa using this
        have hlast : decide (xs.getD (k + 1) 0 < xs.getD k 0) = false := by
          simp only [decide_eq_false_iff_not]
          exact lt_asymm (sub_pos.mp hpos)
        simp only [List.range_succ, List.any_append, List.any_cons,
          List.any_nil, hlast, Bool.or_false]
      · rw [if_neg himp]
        by_cases hneg : (decide (xs.getD (k + 1) 0 - xs.getD k 0 < 0)
            && warn) = true
        · rw [if_pos hneg]
          obtain ⟨hd0, hw⟩ := (Bool.and_eq_true _ _).mp hneg
          have hlt : xs.getD (k + 1) 0 < xs.getD k 0 :=
            sub_neg.mp (of_decide_eq_true hd0)
          rcases hres : closestLoopAux xs k cpr false with ⟨c, n⟩
          have hn0 : n = 0 := by
            have h2 := ih cpr false
            rw [hres] at h2
            simpa using h2
          have hlast : decide (xs.getD (k + 1) 0 < xs.getD k 0) = true :=
            decide_eq_true hlt
          simp [hn0, hw, List.range_succ, hlast]
          exact (if_pos (Or.inr (by simpa using hlt))).symm
        · rw [if_neg hneg, ih]
          cases hw : warn with
          | false => simp
          | true =>
              have hd0 : decide (xs.getD (k + 1) 0 - xs.getD k 0 < 0)
                  = false := by
                cases hdc : decide (xs.getD (k + 1) 0 - xs.getD k 0 < 0) with
                | false => rfl
                | true => exact absurd (by rw [hdc, hw]; rfl) hneg
              have hlast : decide (xs.getD (k + 1) 0 < xs.getD k 0) = false := by
                simp only [decide_eq_false_iff_not] at hd0 ⊢
                intro hlt
                exact hd0 (sub_neg.mpr hlt)
              simp only [List.range_succ, List.any_append, List.any_cons,
                List.any_nil, hlast, Bool.or_false]

/-- Claim C2 (amended): during data processing, the unsorted-data warning
(error 15) is emitted exactly once per pass when sorting is required and
some consecutive delta of the processed x values is strictly negative, and
never otherwise — in particular a zero delta does not trigger it; the
warning count never exceeds one; and the pass is not aborted: the processed
arrays, crop flags and crop start are the same as when no sorting is
required. -/
theorem getProcessedData_unsorted_warning (xData : List K)
    (yData : List (PointOpt K)) (mn mx : K)
    (isCartesian sorted getExtremesFromAll forceCrop requireSorting : Bool)
    (ct cs : Nat) :
    (getProcessedData xData yData mn mx isCartesian sorted getExtremesFromAll
        forceCrop requireSorting ct cs).errorCount =
      (if requireSorting = true ∧
          hasNegDelta (getProcessedData xData yData mn mx isCartesian sorted
            getExtremesFromAll forceCrop requireSorting ct cs).xData = true
        then 1 else 0) ∧
    (getProcessedData xData yData mn mx isCartesian sorted getExtremesFromAll
        forceCrop requireSorting ct cs).errorCount ≤ 1 ∧
    (getProcessedData xData yData mn mx isCartesian sorted getExtremesFromAll
        forceCrop requireSorting ct cs).xData =
      (getProcessedData xData yData mn mx isCartesian sorted getExtremesFromAll
        forceCrop false ct cs).xData ∧
    (getProcessedData xData yData mn mx isCartesian sorted getExtremesFromAll
        forceCrop requireSorting ct cs).yData =
      (getProcessedData xData yData mn mx isCartesian sorted getExtremesFromAll
        forceCrop false ct cs).yData ∧
    (getProcessedData xData yData mn mx isCartesian sorted getExtremesFromAll
        forceCrop requireSorting ct cs).cropped =
      (getProcessedData xData yData mn mx isCartesian sorted getExtremesFromAll
        forceCrop false ct cs).cropped ∧
    (getProcessedData xData yData mn mx isCartesian sorted getExtremesFromAll
        forceCrop requireSorting ct cs).cropStart =
      (getProcessedData xData yData mn mx isCartesian sorted getExtremesFromAll
        forceCrop false ct cs).cropStart := by
  have herr : ∀ (zs : List K) (w : Bool),
      (closestLoop zs w).2 = if w = true ∧ hasNegDelta zs = true
        then 1 else 0 := by
    intro zs w
    rw [closestLoop, closestLoopAux_errors]
    rfl
  refine ⟨?_, ?_, rfl, rfl, rfl, rfl⟩
  · rw [show (getProcessedData xData yData mn mx isCartesian sorted
      getExtremesFromAll forceCrop requireSorting ct cs).errorCount =
      (closestLoop (getProcessedData xData yData mn mx isCartesian sorted
        getExtremesFromAll forceCrop requireSorting ct cs).xData
        requireSorting).2 from rfl]
    rw [herr]
  · rw [show (getProcessedData xData yData mn mx isCartesian sorted
      getExtremesFromAll forceCrop requireSorting ct cs).errorCount =
      (closestLoop (getProcessedData xData yData mn mx isCartesian sorted
        getExtremesFromAll forceCrop requireSorting ct cs).xData
        requireSorting).2 from rfl]
    rw [herr]
    split
    · exact Nat.le_refl 1
    · exact Nat.zero_le 1

/-! ### Claim C3: crop correctness -/

theorem getProcessedData_fullyOutside (xs : List K) (ys : List (PointOpt K))
    (mn mx : K) (forceCrop rs : Bool) (ct cs : Nat) (hne : xs ≠ [])
    (hout : (∀ x ∈ xs, x < mn) ∨ (∀ x ∈ xs, mx < x))
    (hth : ct = 0 ∨ xs.length > ct ∨ forceCrop = true) :
    (getProcessedData xs ys mn mx true true false forceCrop rs ct cs).xData
      = [] ∧
    (getProcessedData xs ys mn mx true true false forceCrop rs ct cs).yData
      = [] := by
  have hen : (true && true && !false &&
      (decide (ct = 0) || decide (xs.length > ct) || forceCrop)) = true := by
    rcases hth with h | h | h <;> simp [h]
  have hlen : 0 < xs.length := List.length_pos.mpr hne
  have h1 : (optValLt xs[xs.length - 1]? mn || optValGt xs[0]? mx) = true := by
    rcases hout with h | h
    · have hidx : xs.length - 1 < xs.length := by omega
      have hmem : xs[xs.length - 1] ∈ xs := xs.getElem_mem hidx
      have : optValLt xs[xs.length - 1]? mn = true := by
        rw [List.getElem?_eq_getElem hidx]
        simpa [optValLt] using h _ hmem
      simp [this]
    · have hmem : xs[0] ∈ xs := xs.getElem_mem hlen
      have : optValGt xs[0]? mx = true := by
        rw [List.getElem?_eq_getElem hlen]
        simpa [optValGt] using h _ hmem
      simp [this]
  have hthp : (ct = 0 ∨ ct < xs.length) ∨ forceCrop = true := by
    rcases hth with h | h | h
    · exact Or.inl (Or.inl h)
    · exact Or.inl (Or.inr h)
    · exact Or.inr h
  constructor <;> simp [getProcessedData, h1, hthp]

theorem getProcessedData_fullyInside (xs : List K) (ys : List (PointOpt K))
    (mn mx : K) (c1 c2 c3 c4 rs : Bool) (ct cs : Nat)
    (hin : ∀ x ∈ xs, mn ≤ x ∧ x ≤ mx) :
    (getProcessedData xs ys mn mx c1 c2 c3 c4 rs ct cs).xData = xs ∧
    (getProcessedData xs ys mn mx c1 c2 c3 c4 rs ct cs).yData = ys ∧
    (getProcessedData xs ys mn mx c1 c2 c3 c4 rs ct cs).cropped = false ∧
    (getProcessedData xs ys mn mx c1 c2 c3 c4 rs ct cs).cropStart = 0 := by
  have hlow : optValLt xs[0]? mn = false := by
    cases h0 : xs[0]? with
    | none => rfl
    | some v =>
        have hv := hin v (List.getElem?_mem h0)
        simp [optValLt, not_lt.mpr hv.1]
  have hhigh : optValGt xs[xs.length - 1]? mx = false := by
    cases h0 : xs[xs.length - 1]? with
    | none => rfl
    | some v =>
        have hv := hin v (List.getElem?_mem h0)
        simp [optValGt, not_lt.mpr hv.2]
  have hlow1 : optValLt xs[xs.length - 1]? mn = false := by
    cases h0 : xs[xs.length - 1]? with
    | none => rfl
    | some v =>
        have hv := hin v (List.getElem?_mem h0)
        simp [optValLt, not_lt.mpr hv.1]
  have hhigh0 : optValGt xs[0]? mx = false := by
    cases h0 : xs[0]? with
    | none => rfl
    | some v =>
        have hv := hin v (List.getElem?_mem h0)
        simp [optValGt, not_lt.mpr hv.2]
  by_cases hen : (c1 && c2 && !c3 &&
      (decide (ct = 0) || decide (xs.length > ct) || c4)) = true
  · refine ⟨?_, ?_, ?_, ?_⟩ <;>
      simp [getProcessedData, hen, hlow, hhigh, hlow1, hhigh0]
  · refine ⟨?_, ?_, ?_, ?_⟩ <;>
      simp [getProcessedData, hen]

theorem getProcessedData_cropped_spills (xs : List K) (ys : List (PointOpt K))
    (mn mx : K) (c1 c2 c3 c4 rs : Bool) (ct cs : Nat)
    (h : (getProcessedData xs ys mn mx c1 c2 c3 c4 rs ct cs).cropped
      = true) :
    (∃ x ∈ xs, x < mn) ∨ (∃ x ∈ xs, mx < x) := by
  by_contra hc
  push_neg at hc
  have hin : ∀ x ∈ xs, mn ≤ x ∧ x ≤ mx := fun x hx =>
    ⟨hc.1 x hx, hc.2 x hx⟩
  have := (getProcessedData_fullyInside xs ys mn mx c1 c2 c3 c4 rs ct cs
    hin).2.2.1
  rw [h] at this
  exact Bool.noConfusion this

/-- Claim C3: crop correctness — on sorted x data `[0..99]` with extremes
`[40, 60]`, `cropThreshold = 10` and `cropShoulder = 1`, processing crops
with `cropStart = 39` and processed raw indices `39..61` (one shoulder
element each side); data fully outside the extremes yields empty processed
arrays; data fully inside passes through untouched; and cropping only
happens when some data actually lies outside the extremes. -/
theorem getProcessedData_crop_correctness :
    ((getProcessedData ((List.range 100).map fun n => (n : ℤ))
        ((List.range 100).map fun n => .num (n : ℤ)) 40 60 true true false
        false true 10 1).cropStart = 39 ∧
      (getProcessedData ((List.range 100).map fun n => (n : ℤ))
        ((List.range 100).map fun n => .num (n : ℤ)) 40 60 true true false
        false true 10 1).cropped = true ∧
      (getProcessedData ((List.range 100).map fun n => (n : ℤ))
        ((List.range 100).map fun n => .num (n : ℤ)) 40 60 true true false
        false true 10 1).xData =
        ((List.range 23).map fun n => (n : ℤ) + 39) ∧
      (getProcessedData ((List.range 100).map fun n => (n : ℤ))
        ((List.range 100).map fun n => .num (n : ℤ)) 40 60 true true false
        false true 10 1).yData =
        ((List.range 23).map fun n => .num ((n : ℤ) + 39))) ∧
    (∀ (xs : List K) (ys : List (PointOpt K)) (mn mx : K)
        (forceCrop rs : Bool) (ct cs : Nat), xs ≠ [] →
      ((∀ x ∈ xs, x < mn) ∨ (∀ x ∈ xs, mx < x)) →
      (ct = 0 ∨ xs.length > ct ∨ forceCrop = true) →
      (getProcessedData xs ys mn mx true true false forceCrop rs ct cs).xData
        = [] ∧
      (getProcessedData xs ys mn mx true true false forceCrop rs ct cs).yData
        = []) ∧
    (∀ (xs : List K) (ys : List (PointOpt K)) (mn mx : K)
        (c1 c2 c3 c4 rs : Bool) (ct cs : Nat),
      (∀ x ∈ xs, mn ≤ x ∧ x ≤ mx) →
      (getProcessedData xs ys mn mx c1 c2 c3 c4 rs ct cs).xData = xs ∧
      (getProcessedData xs ys mn mx c1 c2 c3 c4 rs ct cs).yData = ys ∧
      (getProcessedData xs ys mn mx c1 c2 c3 c4 rs ct cs).cropped = false ∧
      (getProcessedData xs ys mn mx c1 c2 c3 c4 rs ct cs).cropStart = 0) ∧
    (∀ (xs : List K) (ys : List (PointOpt K)) (mn mx : K)
        (c1 c2 c3 c4 rs : Bool) (ct cs : Nat),
      (getProcessedData xs ys mn mx c1 c2 c3 c4 rs ct cs).cropped = true →
      (∃ x ∈ xs, x < mn) ∨ (∃ x ∈ xs, mx < x)) :=
  ⟨by decide,
   fun xs ys mn mx fc rs ct cs hne hout hth =>
     getProcessedData_fullyOutside xs ys mn mx fc rs ct cs hne hout hth,
   fun xs ys mn mx c1 c2 c3 c4 rs ct cs hin =>
     getProcessedData_fullyInside xs ys mn mx c1 c2 c3 c4 rs ct cs hin,
   fun xs ys mn mx c1 c2 c3 c4 rs ct cs h =>
     getProcessedData_cropped_spills xs ys mn mx c1 c2 c3 c4 rs ct cs h⟩

/-- Witness for C3 at a concrete input: a fully-inside two-point series
passes through untouched. -/
theorem getProcessedData_crop_correctness_witness :
    (getProcessedData ([1, 2] : List ℤ) [.num 1, .num 2] 0 10 true true
      false false true 0 1).xData = [1, 2] ∧
    (getProcessedData ([1, 2] : List ℤ) [.num 1, .num 2] 0 10 true true
      false false true 0 1).yData = [.num 1, .num 2] ∧
    (getProcessedData ([1, 2] : List ℤ) [.num 1, .num 2] 0 10 true true
      false false true 0 1).cropped = false ∧
    (getProcessedData ([1, 2] : List ℤ) [.num 1, .num 2] 0 10 true true
      false false true 0 1).cropStart = 0 :=
  getProcessedData_crop_correctness.2.2.1 [1, 2] [.num 1, .num 2] 0 10
    true true false false true 0 1 (by decide)

/-! ### Claim C1: the turbo input-format error -/

/-- Claim C1 (amended): when the raw length exceeds `turboThreshold` and the
first valid entry is neither a number nor an array, `setData` reports error
12 exactly once — but it does not abort: the parallel arrays are left
empty, `options.data` is replaced by the new raw array, `series.data` is
reset, and the old points are destroyed. -/
theorem setDataReplace_turbo_error (cfg : SDConfig K) (s : SState K)
    (data : List (PointOpt K)) (h1 : cfg.turboThreshold ≠ 0)
    (h2 : data.length > cfg.turboThreshold)
    (h3 : ∀ y, getFirstValidPoint data ≠ some (.num y))
    (h4 : ∀ a b, getFirstValidPoint data ≠ some (.arr2 a b)) :
    (setDataReplace cfg s data).2 = [12] ∧
    (setDataReplace cfg s data).1.xData = [] ∧
    (setDataReplace cfg s data).1.yData = [] ∧
    (setDataReplace cfg s data).1.optionsData = data ∧
    (setDataReplace cfg s data).1.dataArr = [] ∧
    (setDataReplace cfg s data).1.points =
      s.points.map (Option.map fun p => { p with destroyed := true }) := by
  have hcond : cfg.turboThreshold ≠ 0 ∧ data.length > cfg.turboThreshold :=
    ⟨h1, h2⟩
  cases hfp : getFirstValidPoint data with
  | none => refine ⟨?_, ?_, ?_, ?_, ?_, ?_⟩ <;>
      simp [setDataReplace, hcond, hfp]
  | some p =>
      cases p with
      | num y => exact absurd hfp (h3 y)
      | arr2 a b => exact absurd hfp (h4 a b)
      | obj x y => refine ⟨?_, ?_, ?_, ?_, ?_, ?_⟩ <;>
          simp [setDataReplace, hcond, hfp]
      | nullOpt => refine ⟨?_, ?_, ?_, ?_, ?_, ?_⟩ <;>
          simp [setDataReplace, hcond, hfp]

/-- Counterexample for C1 as stated: a `setData` call that reports the
turbo format error does mutate the series — the parallel arrays are
emptied and `options.data` is replaced — so the prior state is not
preserved. -/
theorem setDataReplace_turbo_error_counterexample :
    (setDataReplace (SDConfig.mk 1 none none)
      ((SState.mk [1] [.num 2] [.num 2] [] []) : SState ℤ)
      [.obj none (some 3), .obj none (some 4)]).2 = [12] ∧
    (setDataReplace (SDConfig.mk 1 none none)
      ((SState.mk [1] [.num 2] [.num 2] [] []) : SState ℤ)
      [.obj none (some 3), .obj none (some 4)]).1.xData = [] ∧
    ((SState.mk [1] [.num 2] [.num 2] [] []) : SState ℤ).xData = [1] ∧
    (setDataReplace (SDConfig.mk 1 none none)
      ((SState.mk [1] [.num 2] [.num 2] [] []) : SState ℤ)
      [.obj none (some 3), .obj none (some 4)]).1.optionsData =
      [.obj none (some 3), .obj none (some 4)] ∧
    ((SState.mk [1] [.num 2] [.num 2] [] []) : SState ℤ).optionsData
      = [.num 2] := by
  decide

/-- Witness for C1 (amended) at the same concrete input. -/
theorem setDataReplace_turbo_error_witness :
    (setDataReplace (SDConfig.mk 1 none none)
      ((SState.mk [1] [.num 2] [.num 2] [] []) : SState ℤ)
      [.obj none (some 3), .obj none (some 4)]).2 = [12] ∧
    (setDataReplace (SDConfig.mk 1 none none)
      ((SState.mk [1] [.num 2] [.num 2] [] []) : SState ℤ)
      [.obj none (some 3), .obj none (some 4)]).1.xData = [] ∧
    (setDataReplace (SDConfig.mk 1 none none)
      ((SState.mk [1] [.num 2] [.num 2] [] []) : SState ℤ)
      [.obj none (some 3), .obj none (some 4)]).1.yData = [] ∧
    (setDataReplace (SDConfig.mk 1 none none)
      ((SState.mk [1] [.num 2] [.num 2] [] []) : SState ℤ)
      [.obj none (some 3), .obj none (some 4)]).1.optionsData =
      [.obj none (some 3), .obj none (some 4)] ∧
    (setDataReplace (SDConfig.mk 1 none none)
      ((SState.mk [1] [.num 2] [.num 2] [] []) : SState ℤ)
      [.obj none (some 3), .obj none (some 4)]).1.dataArr = [] ∧
    (setDataReplace (SDConfig.mk 1 none none)
      ((SState.mk [1] [.num 2] [.num 2] [] []) : SState ℤ)
      [.obj none (some 3), .obj none (some 4)]).1.points =
      (((SState.mk [1] [.num 2] [.num 2] [] []) : SState ℤ).points.map
        (Option.map fun p => { p with destroyed := true })) :=
  setDataReplace_turbo_error (SDConfig.mk 1 none none)
    ((SState.mk [1] [.num 2] [.num 2] [] []) : SState ℤ)
    [.obj none (some 3), .obj none (some 4)] (by decide) (by decide)
    (fun y h => PointOpt.noConfusion (Option.some.inj h))
    (fun a b h => PointOpt.noConfusion (Option.some.inj h))

/-! ### Claim C4: turbo/generic equivalence for homogeneous numbers -/

theorem turboNumberLoop_eq_genericLoop (ps : Option K) (pi : K) :
    ∀ (ys : List K) (xInc : Option K),
      turboNumberLoop ps pi xInc (ys.map .num) =
        genericLoop ps pi xInc (ys.map .num) := by
  intro ys
  induction ys with
  | nil => intro xInc; rfl
  | cons y t ih =>
      intro xInc
      simp only [List.map_cons, turboNumberLoop, genericLoop, applyOptions,
        Option.elim, ih]

/-- Claim C4: for a homogeneous array of plain numbers longer than
`turboThreshold`, the `xData`/`yData` produced by the turbo fast path of
`setData` equal those produced by running the generic per-point path
(`applyOptions` + `updateParallelArrays` per entry) over the same input,
with the auto-incremented x sequence identical in both. -/
theorem setData_turbo_generic_equiv (cfg : SDConfig K) (s : SState K)
    (ys : List K) (h1 : cfg.turboThreshold ≠ 0)
    (h2 : (ys.map PointOpt.num).length > cfg.turboThreshold) :
    ((setDataReplace cfg s (ys.map .num)).1.xData,
      (setDataReplace cfg s (ys.map .num)).1.yData) =
      genericLoop cfg.pointStart (cfg.pointInterval.getD 1) none
        (ys.map .num) := by
  obtain ⟨y0, t, rfl⟩ : ∃ y0 t, ys = y0 :: t := by
    cases ys with
    | nil => simp at h2
    | cons a b => exact ⟨a, b, rfl⟩
  have hfp : getFirstValidPoint ((y0 :: t).map PointOpt.num) =
      some (.num y0) := rfl
  have key : setDataReplace cfg s ((y0 :: t).map PointOpt.num) =
      ({ xData := (turboNumberLoop cfg.pointStart (cfg.pointInterval.getD 1)
          none ((y0 :: t).map PointOpt.num)).1
         yData := (turboNumberLoop cfg.pointStart (cfg.pointInterval.getD 1)
          none ((y0 :: t).map PointOpt.num)).2
         optionsData := (y0 :: t).map PointOpt.num
         dataArr := []
         points := s.points.map (Option.map fun p =>
          { p with destroyed := true }) }, []) := by
    simp only [setDataReplace]
    rw [if_pos (And.intro h1 h2), hfp]
  rw [key, ← turboNumberLoop_eq_genericLoop]

/-- Witness for C4 at a concrete input: two numeric entries above a
threshold of one, with `pointStart = 5` and `pointInterval = 2`. -/
theorem setData_turbo_generic_equiv_witness :
    ((setDataReplace (SDConfig.mk 1 (some 5) (some 2))
        ((SState.mk [] [] [] [] []) : SState ℤ) ([7, 8].map .num)).1.xData,
      (setDataReplace (SDConfig.mk 1 (some 5) (some 2))
        ((SState.mk [] [] [] [] []) : SState ℤ) ([7, 8].map .num)).1.yData) =
      genericLoop (some 5) ((some (2:ℤ)).getD 1) none ([7, 8].map .num) :=
  setData_turbo_generic_equiv (SDConfig.mk 1 (some 5) (some 2))
    ((SState.mk [] [] [] [] []) : SState ℤ) [7, 8] (by decide) (by decide)

/-- Counterexample for C2 as stated: with sorting required and processed x
values `[5, 5]`, the (unique) consecutive delta is zero — non-positive —
yet no unsorted-data warning is emitted. -/
theorem getProcessedData_zero_delta_counterexample :
    (getProcessedData ([5, 5] : List ℤ) [.num 1, .num 2] 0 10 false false false false
      true 0 1).xData = [5, 5] ∧
    (getProcessedData ([5, 5] : List ℤ) [.num 1, .num 2] 0 10 false false false false
        true 0 1).xData.getD 1 0 -
      (getProcessedData ([5, 5] : List ℤ) [.num 1, .num 2] 0 10 false false false false
        true 0 1).xData.getD 0 0 ≤ 0 ∧
    (getProcessedData ([5, 5] : List ℤ) [.num 1, .num 2] 0 10 false false false false
      true 0 1).errorCount = 0 := by
  decide

/-! ### Claim C7: sortData — stable descending sort and x reassignment

The ES2019-stable sort at `SortEntry` level is transported along the map
`f e = (e.y.getD 0, e.index)` to pairs, where the comparator corresponds to
the (globally transitive and total) descending order on the first
component; this is what makes the sortedness and stability statements
provable for numeric data — the raw comparator on entries with `undefined`
keys is not transitive, which matches the JavaScript caveat that `sort`
with an inconsistent comparator is implementation-defined. -/

theorem sortDataTagged_index (data : List (PointOpt K)) (i : Nat)
    (h : i < (sortDataTagged data).length) :
    (sortDataTagged data)[i].index = i := by
  simp [sortDataTagged]

theorem sortDataTagged_y_isSome (ys : List K) :
    ∀ e ∈ sortDataTagged (ys.map PointOpt.num), ∃ w, e.y = some w := by
  intro e he
  simp only [sortDataTagged, List.mem_mapIdx] at he
  obtain ⟨i, hi, rfl⟩ := he
  refine ⟨ys.get ⟨i, by simpa using hi⟩, ?_⟩
  simp [optionsToEntry]

theorem sortDataTagged_inj (data : List (PointOpt K)) :
    ∀ a ∈ sortDataTagged data, ∀ b ∈ sortDataTagged data,
      a.index = b.index → a = b := by
  intro a ha b hb hab
  obtain ⟨ia, hia, rfl⟩ := List.mem_iff_getElem.mp ha
  obtain ⟨ib, hib, rfl⟩ := List.mem_iff_getElem.mp hb
  have h1 := sortDataTagged_index data ia hia
  have h2 := sortDataTagged_index data ib hib
  rw [h1, h2] at hab
  subst hab
  rfl

theorem sortDataCmp_corresponds (ys : List K) :
    ∀ a ∈ sortDataTagged (ys.map PointOpt.num),
    ∀ b ∈ sortDataTagged (ys.map PointOpt.num),
      cmpLe sortDataCmp a b =
        decide ((b.y.getD 0, b.index).1 ≤ (a.y.getD 0, a.index).1) := by
  intro a ha b hb
  obtain ⟨av, hav⟩ := sortDataTagged_y_isSome ys a ha
  obtain ⟨bv, hbv⟩ := sortDataTagged_y_isSome ys b hb
  by_cases h1 : bv < av <;> by_cases h2 : av < bv
  · exact absurd h2 (lt_asymm h1)
  · simp [cmpLe, sortDataCmp, jsLt, hav, hbv, h1, h2, le_of_lt h1]
  · simp [cmpLe, sortDataCmp, jsLt, hav, hbv, h1, h2, not_le.mpr h2]
  · simp [cmpLe, sortDataCmp, jsLt, hav, hbv, h1, h2]
    exact not_lt.mp h2

theorem pair_sublist_of_map (f : α → β) :
    ∀ (L : List α) (u v : α),
      (∀ a ∈ L, ∀ b ∈ L, f a = f b → a = b) → u ∈ L → v ∈ L →
      List.Sublist [f u, f v] (L.map f) → List.Sublist [u, v] L := by
  intro L
  induction L with
  | nil => intro u v _ hu _ _; exact absurd hu (List.not_mem_nil u)
  | cons c T ih =>
      intro u v hinj hu hv hs
      have hinjT : ∀ a ∈ T, ∀ b ∈ T, f a = f b → a = b := fun a ha b hb =>
        hinj a (List.mem_cons_of_mem c ha) b (List.mem_cons_of_mem c hb)
      rw [List.map_cons] at hs
      have hmemT : ∀ w, w ∈ (c :: T) → f w ∈ T.map f → w ∈ T := by
        intro w hw hfw
        obtain ⟨t, ht, hft⟩ := List.mem_map.mp hfw
        rwa [hinj t (List.mem_cons_of_mem c ht) w hw hft] at ht
      rcases List.sublist_cons_iff.mp hs with hsub | ⟨r, hr, hsub⟩
      · have huT : u ∈ T :=
          hmemT u hu (hsub.subset (List.mem_cons_self _ _))
        have hvT : v ∈ T := hmemT v hv
          (hsub.subset (List.mem_cons_of_mem _ (List.mem_cons_self _ _)))
        exact List.Sublist.cons c (ih u v hinjT huT hvT hsub)
      · injection hr with hfu hrr
        subst hrr
        have huc : u = c := hinj u hu c (List.mem_cons_self _ _) hfu
        have hvT : v ∈ T := hmemT v hv
          (List.singleton_sublist.mp hsub)
        subst huc
        exact List.Sublist.cons₂ u (List.singleton_sublist.mpr hvT)

/-- Claim C7: with `dataSorting.enabled` and the default sort key `y`,
`sortData` stably sorts the (index-tagged) entries descending by `y` and
reassigns `x := index-in-sorted-order`: concretely `[3, 1, 2]` yields y
values `[3, 2, 1]` with `x = [0, 1, 2]` (the tie-broken entry order
`0, 2, 1`); in general the sorted sequence is a permutation of the tagged
entries, the reassigned x values are `0, 1, …`, for numeric data the y
values are pairwise non-increasing, and any comparator-non-decreasing pair
of entries (ties in particular) keeps its relative order. -/
theorem sortData_descending_stable :
    (sortData ([.num 3, .num 1, .num 2] : List (PointOpt ℤ)) =
      [⟨some 0, some 3, 0⟩, ⟨some 1, some 2, 2⟩, ⟨some 2, some 1, 1⟩]) ∧
    (∀ (data : List (PointOpt K)),
      List.Perm (jsSort sortDataCmp (sortDataTagged data))
        (sortDataTagged data)) ∧
    (∀ (data : List (PointOpt K)),
      (sortData data).map SortEntry.x =
        (List.range data.length).map fun i : Nat => some (i : K)) ∧
    (∀ (ys : List K),
      ((sortData (ys.map PointOpt.num)).map SortEntry.y).Pairwise
        (fun a b => jsLt a b = false)) ∧
    (∀ (ys : List K) (u v : SortEntry K),
      sortDataCmp u v ≤ 0 →
      List.Sublist [u, v] (sortDataTagged (ys.map PointOpt.num)) →
      List.Sublist [u, v]
        (jsSort sortDataCmp (sortDataTagged (ys.map PointOpt.num)))) := by
  have htrans : ∀ a b c : K × Nat,
      (decide (b.1 ≤ a.1)) = true → (decide (c.1 ≤ b.1)) = true →
      (decide (c.1 ≤ a.1)) = true := by
    intro a b c h1 h2
    simp only [decide_eq_true_eq] at h1 h2 ⊢
    exact le_trans h2 h1
  have htotal : ∀ a b : K × Nat,
      ((decide (b.1 ≤ a.1)) || (decide (a.1 ≤ b.1))) = true := by
    intro a b
    rcases le_total b.1 a.1 with h | h <;> simp [h]
  refine ⟨?_, fun data => List.mergeSort_perm _ _, ?_, ?_, ?_⟩
  · simp [sortData, sortDataTagged, jsSort, List.mapIdx_cons, List.mapIdx_nil,
      List.mergeSort, List.splitInTwo, List.merge, sortDataCmp, jsLt,
      optionsToEntry, cmpLe]
  · intro data
    apply List.ext_getElem
    · simp only [List.length_map, sortData, List.length_mapIdx, jsSort,
        List.length_mergeSort, sortDataTagged, List.length_range]
    · intro i h1 h2
      simp only [sortData, List.getElem_map, List.getElem_mapIdx,
        List.getElem_range]
  · intro ys
    have hl : ∀ a ∈ sortDataTagged (ys.map PointOpt.num),
        ∀ b ∈ sortDataTagged (ys.map PointOpt.num),
        cmpLe sortDataCmp a b =
          decide ((b.y.getD 0, b.index).1 ≤ (a.y.getD 0, a.index).1) :=
      sortDataCmp_corresponds ys
    have hmap : (List.mergeSort (sortDataTagged (ys.map PointOpt.num))
          (cmpLe sortDataCmp)).map
            (fun e : SortEntry K => (e.y.getD 0, e.index)) =
        ((sortDataTagged (ys.map PointOpt.num)).map
          (fun e : SortEntry K => (e.y.getD 0, e.index))).mergeSort
            (fun u v : K × Nat => decide (v.1 ≤ u.1)) :=
      List.map_mergeSort hl
    have hp := List.sorted_mergeSort htrans htotal
      ((sortDataTagged (ys.map PointOpt.num)).map
        (fun e : SortEntry K => (e.y.getD 0, e.index)))
    rw [← hmap] at hp
    have hp2 := List.pairwise_map.mp hp
    have hmem : ∀ e ∈ List.mergeSort (sortDataTagged (ys.map PointOpt.num))
        (cmpLe sortDataCmp), e ∈ sortDataTagged (ys.map PointOpt.num) := by
      intro e he
      exact List.mem_mergeSort.mp he
    have hp3 : (List.mergeSort (sortDataTagged (ys.map PointOpt.num))
        (cmpLe sortDataCmp)).Pairwise
          (fun a b => jsLt a.y b.y = false) := by
      refine List.Pairwise.imp_of_mem ?_ hp2
      intro a b ha hb hab
      obtain ⟨av, hav⟩ := sortDataTagged_y_isSome ys a (hmem a ha)
      obtain ⟨bv, hbv⟩ := sortDataTagged_y_isSome ys b (hmem b hb)
      simp only [hav, hbv, Option.getD_some, decide_eq_true_eq] at hab
      simp [jsLt, hav, hbv, not_lt.mpr hab]
    have hy : (sortData (ys.map PointOpt.num)).map SortEntry.y =
        (List.mergeSort (sortDataTagged (ys.map PointOpt.num))
          (cmpLe sortDataCmp)).map SortEntry.y := by
      apply List.ext_getElem
      · simp [sortData, jsSort, sortDataTagged]
      · intro i h1 h2
        simp [sortData, jsSort, sortDataTagged, List.getElem_map,
          List.getElem_mapIdx]
    rw [hy]
    exact List.pairwise_map.mpr hp3
  · intro ys u v hcmp hsl
    have hu : u ∈ sortDataTagged (ys.map PointOpt.num) :=
      hsl.subset (List.mem_cons_self _ _)
    have hv : v ∈ sortDataTagged (ys.map PointOpt.num) :=
      hsl.subset (List.mem_cons_of_mem _ (List.mem_cons_self _ _))
    have hl : ∀ a ∈ sortDataTagged (ys.map PointOpt.num),
        ∀ b ∈ sortDataTagged (ys.map PointOpt.num),
        cmpLe sortDataCmp a b =
          decide ((b.y.getD 0, b.index).1 ≤ (a.y.getD 0, a.index).1) :=
      sortDataCmp_corresponds ys
    have hmap : (List.mergeSort (sortDataTagged (ys.map PointOpt.num))
          (cmpLe sortDataCmp)).map
            (fun e : SortEntry K => (e.y.getD 0, e.index)) =
        ((sortDataTagged (ys.map PointOpt.num)).map
          (fun e : SortEntry K => (e.y.getD 0, e.index))).mergeSort
            (fun u v : K × Nat => decide (v.1 ≤ u.1)) :=
      List.map_mergeSort hl
    have hpairuv : (decide ((v.y.getD 0, v.index).1 ≤ (u.y.getD 0,
        u.index).1)) = true := by
      rw [← hl u hu v hv]
      simpa [cmpLe] using hcmp
    have hbig := List.sublist_mergeSort htrans htotal
      (List.pairwise_pair.mpr hpairuv)
      (hsl.map (fun e : SortEntry K => (e.y.getD 0, e.index)))
    rw [← hmap] at hbig
    have hinj : ∀ a ∈ List.mergeSort (sortDataTagged (ys.map PointOpt.num))
        (cmpLe sortDataCmp),
        ∀ b ∈ List.mergeSort (sortDataTagged (ys.map PointOpt.num))
          (cmpLe sortDataCmp),
        (fun e : SortEntry K => (e.y.getD 0, e.index)) a =
          (fun e : SortEntry K => (e.y.getD 0, e.index)) b → a = b := by
      intro a ha b hb hab
      simp only [Prod.mk.injEq] at hab
      exact sortDataTagged_inj (ys.map PointOpt.num) a
        (List.mem_mergeSort.mp ha) b (List.mem_mergeSort.mp hb) hab.2
    exact pair_sublist_of_map _ _ u v hinj
      (List.mem_mergeSort.mpr hu) (List.mem_mergeSort.mpr hv) hbig

/-- Witness for C7 at a concrete input: two tied numeric entries keep
their original order through the sort. -/
theorem sortData_descending_stable_witness :
    List.Sublist [(⟨none, some 1, 0⟩ : SortEntry ℤ), ⟨none, some 1, 1⟩]
      (jsSort sortDataCmp
        (sortDataTagged (([1, 1] : List ℤ).map PointOpt.num))) :=
  sortData_descending_stable.2.2.2.2 [1, 1] ⟨none, some 1, 0⟩
    ⟨none, some 1, 1⟩ (by decide)
    (by simp [sortDataTagged, List.mapIdx_cons, List.mapIdx_nil,
      optionsToEntry])

/-! ### Claim C9: generatePoints -/

theorem getD_set (l : List α) (j c : Nat) (v d : α) :
    (l.set j v).getD c d = if c = j ∧ j < l.length then v else l.getD c d := by
  by_cases hc : c = j ∧ j < l.length
  · obtain ⟨rfl, hj⟩ := hc
    simp [List.getD_eq_getElem?_getD, List.getElem?_set_self hj, hj]
  · rw [if_neg hc]
    rcases Decidable.em (c = j) with rfl | hne
    · have hj : ¬ c < l.length := fun h => hc ⟨rfl, h⟩
      simp [List.getD_eq_getElem?_getD, List.getElem?_set_self',
        List.getElem?_eq_none (by omega : l.length ≤ c)]
    · simp [List.getD_eq_getElem?_getD,
        List.getElem?_set_ne (fun h => hne h.symm)]

theorem getD_some_lt {l : List (Option α)} {c : Nat} {q : α}
    (h : l.getD c none = some q) : c < l.length := by
  by_contra hc
  rw [List.getD_eq_getElem?_getD, List.getElem?_eq_none (by omega)] at h
  simp at h

theorem getD_jsWriteAt_lt (pad : α) {l : List α} {i : Nat} (v : α)
    (c : Nat) (h : i < l.length) (d : α) :
    (jsWriteAt pad l i v).getD c d = if c = i then v else l.getD c d := by
  rw [jsWriteAt_lt pad v h, getD_set]
  by_cases hc : c = i
  · simp [hc, h]
  · simp [hc]

theorem genCell_index (dataOptions : List (PointOpt K))
    (data : List (Option (MPoint K))) (cursor : Nat) (x : K) (p : MPoint K)
    (h : genCell dataOptions data cursor x = some p) :
    p.index = cursor := by
  unfold genCell at h
  rcases hd : data.getD cursor none with _ | q
  · rw [hd] at h
    rcases ho : dataOptions[cursor]? with _ | o
    · rw [ho] at h
      exact absurd h (by simp)
    · rw [ho] at h
      cases h
      rfl
  · rw [hd] at h
    cases h
    rfl

theorem genCell_lt_of_some (dataOptions : List (PointOpt K))
    (data : List (Option (MPoint K))) (cursor : Nat) (x : K) (p : MPoint K)
    (hlen : data.length = dataOptions.length)
    (h : genCell dataOptions data cursor x = some p) :
    cursor < data.length := by
  unfold genCell at h
  rcases hd : data.getD cursor none with _ | q
  · rw [hd] at h
    rcases ho : dataOptions[cursor]? with _ | o
    · rw [ho] at h
      exact absurd h (by simp)
    · obtain ⟨hlt, _⟩ := List.getElem?_eq_some_iff.mp ho
      omega
  · exact getD_some_lt hd

theorem genLoop_spec (dataOptions : List (PointOpt K)) (cropStart : Nat) :
    ∀ (xs : List K) (k : Nat) (data points : List (Option (MPoint K))),
      data.length = dataOptions.length →
      (genLoop dataOptions cropStart (xs.enumFrom k) data points).1.length
          = data.length ∧
      (genLoop dataOptions cropStart (xs.enumFrom k) data points).2
          = points ++ (xs.enumFrom k).map (fun q =>
              genCell dataOptions data (cropStart + q.1) q.2) ∧
      (∀ c : Nat,
        (genLoop dataOptions cropStart (xs.enumFrom k) data points).1.getD c
            none =
          if cropStart + k ≤ c ∧ c < cropStart + k + xs.length then
            genCell dataOptions data c (xs.getD (c - (cropStart + k)) 0)
          else data.getD c none) := by
  intro xs
  induction xs with
  | nil =>
      intro k data points hlen
      refine ⟨by simp [genLoop], by simp [genLoop], ?_⟩
      intro c
      have h0 : (genLoop dataOptions cropStart (List.enumFrom k []) data
          points).1 = data := by
        simp [genLoop]
      rw [h0, if_neg (by simp only [List.length_nil]; omega)]
  | cons x xs ih =>
      intro k data points hlen
      rw [List.enumFrom_cons]
      cases hcell : genCell dataOptions data (cropStart + k) x with
      | none =>
          have hstep : genLoop dataOptions cropStart
              ((k, x) :: xs.enumFrom (k + 1)) data points =
              genLoop dataOptions cropStart (xs.enumFrom (k + 1)) data
                (points ++ [none]) := by
            simp [genLoop, hcell]
          obtain ⟨ih1, ih2, ih3⟩ := ih (k + 1) data (points ++ [none]) hlen
          have hnone : data.getD (cropStart + k) none = none := by
            unfold genCell at hcell
            rcases hd : data.getD (cropStart + k) none with _ | q
            · rfl
            · rw [hd] at hcell
              exact absurd hcell (by simp)
          refine ⟨by rw [hstep, ih1], ?_, ?_⟩
          · rw [hstep, ih2, List.map_cons, hcell, List.append_assoc]
            rfl
          · intro c
            rw [hstep, ih3 c]
            by_cases hch : c = cropStart + k
            · subst hch
              have h1 : ¬(cropStart + (k + 1) ≤ cropStart + k ∧
                  cropStart + k < cropStart + (k + 1) + xs.length) := by
                omega
              have h2 : cropStart + k ≤ cropStart + k ∧
                  cropStart + k < cropStart + k + (x :: xs).length := by
                simp only [List.length_cons]
                omega
              rw [if_neg h1, if_pos h2, Nat.sub_self, List.getD_cons_zero,
                hcell, hnone]
            · by_cases hw : cropStart + (k + 1) ≤ c ∧
                  c < cropStart + (k + 1) + xs.length
              · have h2 : cropStart + k ≤ c ∧
                    c < cropStart + k + (x :: xs).length := by
                  simp only [List.length_cons]
                  omega
                rw [if_pos hw, if_pos h2]
                have ha : c - (cropStart + k) =
                    (c - (cropStart + (k + 1))) + 1 := by omega
                rw [ha, List.getD_cons_succ]
              · have h2 : ¬(cropStart + k ≤ c ∧
                    c < cropStart + k + (x :: xs).length) := by
                  simp only [List.length_cons]
                  omega
                rw [if_neg hw, if_neg h2]
      | some p =>
          have hc0 : cropStart + k < data.length :=
            genCell_lt_of_some dataOptions data (cropStart + k) x p hlen hcell
          have hstep : genLoop dataOptions cropStart
              ((k, x) :: xs.enumFrom (k + 1)) data points =
              genLoop dataOptions cropStart (xs.enumFrom (k + 1))
                (jsWriteAt none data (cropStart + k) (some p))
                (points ++ [some p]) := by
            simp [genLoop, hcell]
          have hlen1 : (jsWriteAt none data (cropStart + k) (some p)).length
              = dataOptions.length := by
            rw [jsWriteAt_lt none (some p) hc0, List.length_set]
            exact hlen
          obtain ⟨ih1, ih2, ih3⟩ := ih (k + 1)
            (jsWriteAt none data (cropStart + k) (some p))
            (points ++ [some p]) hlen1
          have hgd1 : ∀ c, c ≠ cropStart + k →
              (jsWriteAt none data (cropStart + k) (some p)).getD c none =
                data.getD c none := by
            intro c hcne
            rw [getD_jsWriteAt_lt none (some p) c hc0 none, if_neg hcne]
          have hcellcong : ∀ c, c ≠ cropStart + k → ∀ z,
              genCell dataOptions
                (jsWriteAt none data (cropStart + k) (some p)) c z =
              genCell dataOptions data c z := by
            intro c hcne z
            unfold genCell
            rw [hgd1 c hcne]
          refine ⟨?_, ?_, ?_⟩
          · rw [hstep, ih1, jsWriteAt_lt none (some p) hc0, List.length_set]
          · rw [hstep, ih2, List.map_cons, hcell]
            have hmapc : (xs.enumFrom (k + 1)).map (fun q =>
                genCell dataOptions
                  (jsWriteAt none data (cropStart + k) (some p))
                  (cropStart + q.1) q.2) =
                (xs.enumFrom (k + 1)).map (fun q =>
                  genCell dataOptions data (cropStart + q.1) q.2) := by
              apply List.map_congr_left
              intro q hq
              rcases q with ⟨qi, qx⟩
              have hfst := (List.mem_enumFrom hq).1
              exact hcellcong _ (by omega) qx
            rw [hmapc, List.append_assoc]
            rfl
          · intro c
            rw [hstep, ih3 c]
            by_cases hch : c = cropStart + k
            · subst hch
              have h1 : ¬(cropStart + (k + 1) ≤ cropStart + k ∧
                  cropStart + k < cropStart + (k + 1) + xs.length) := by
                omega
              have h2 : cropStart + k ≤ cropStart + k ∧
                  cropStart + k < cropStart + k + (x :: xs).length := by
                simp only [List.length_cons]
                omega
              rw [if_neg h1, if_pos h2, Nat.sub_self, List.getD_cons_zero,
                hcell, getD_jsWriteAt_lt none (some p) _ hc0 none,
                if_pos rfl]
            · by_cases hw : cropStart + (k + 1) ≤ c ∧
                  c < cropStart + (k + 1) + xs.length
              · have h2 : cropStart + k ≤ c ∧
                    c < cropStart + k + (x :: xs).length := by
                  simp only [List.length_cons]
                  omega
                rw [if_pos hw, if_pos h2, hcellcong c hch]
                have ha : c - (cropStart + k) =
                    (c - (cropStart + (k + 1))) + 1 := by omega
                rw [ha, List.getD_cons_succ]
              · have h2 : ¬(cropStart + k ≤ c ∧
                    c < cropStart + k + (x :: xs).length) := by
                  simp only [List.length_cons]
                  omega
                rw [if_neg hw, if_neg h2, hgd1 c hch]

/-- One step of `releaseLoop` below the bound. -/
theorem releaseLoop_step (cropStart processedLen dataLength i : Nat)
    (data : List (Option (MPoint K))) (hi : i < dataLength) :
    releaseLoop cropStart processedLen dataLength i data =
      releaseLoop cropStart processedLen dataLength
        ((if i = cropStart then i + processedLen else i) + 1)
        (data.set (if i = cropStart then i + processedLen else i)
          (releaseCell (data.getD
            (if i = cropStart then i + processedLen else i) none))) := by
  rw [releaseLoop, dif_pos hi]

/-- `releaseLoop` stops at the bound. -/
theorem releaseLoop_stop (cropStart processedLen dataLength i : Nat)
    (data : List (Option (MPoint K))) (hi : ¬ i < dataLength) :
    releaseLoop cropStart processedLen dataLength i data = data := by
  rw [releaseLoop, dif_neg hi]

/-- `releaseLoop` never changes the length of the array. -/
theorem releaseLoop_length (cropStart processedLen dataLength : Nat) :
    ∀ (n i : Nat) (data : List (Option (MPoint K))), dataLength ≤ i + n →
      (releaseLoop cropStart processedLen dataLength i data).length
        = data.length := by
  intro n
  induction n with
  | zero =>
      intro i data h
      rw [releaseLoop_stop _ _ _ _ _ (by omega)]
  | succ n ih =>
      intro i data h
      by_cases hi : i < dataLength
      · rw [releaseLoop_step _ _ _ _ _ hi]
        by_cases hc : i = cropStart
        · rw [if_pos hc, ih _ _ (by omega), List.length_set]
        · rw [if_neg hc, ih _ _ (by omega), List.length_set]
      · rw [releaseLoop_stop _ _ _ _ _ hi]

/-- Characterization of `releaseLoop` starting at a counter that is not
strictly inside the processed window: a cell is released exactly when the
counter reaches it, i.e. when it lies in `[i, dataLength)` and outside the
window `[cropStart, cropStart + processedLen)`. -/
theorem releaseLoop_getD (cropStart processedLen dataLength : Nat) :
    ∀ (n i : Nat) (data : List (Option (MPoint K))), dataLength ≤ i + n →
      data.length = dataLength →
      (i ≤ cropStart ∨ cropStart + processedLen ≤ i) →
      ∀ c, (releaseLoop cropStart processedLen dataLength i data).getD c none
        = if i ≤ c ∧ c < dataLength ∧
              (c < cropStart ∨ cropStart + processedLen ≤ c) then
            releaseCell (data.getD c none)
          else data.getD c none := by
  intro n
  induction n with
  | zero =>
      intro i data h hlen hpos c
      rw [releaseLoop_stop _ _ _ _ _ (by omega), if_neg (by omega)]
  | succ n ih =>
      intro i data h hlen hpos c
      by_cases hi : i < dataLength
      · rw [releaseLoop_step _ _ _ _ _ hi]
        by_cases hc : i = cropStart
        · subst hc
          rw [if_pos rfl]
          have hlen1 : (data.set (i + processedLen)
              (releaseCell (data.getD (i + processedLen) none))).length
              = dataLength := by
            rw [List.length_set]
            exact hlen
          rw [ih (i + processedLen + 1) _ (by omega) hlen1 (by omega) c]
          by_cases hrel : i + processedLen + 1 ≤ c ∧ c < dataLength ∧
              (c < i ∨ i + processedLen ≤ c)
          · rw [if_pos hrel, if_pos (by omega), getD_set,
              if_neg (by omega)]
          · rw [if_neg hrel, getD_set]
            by_cases hcj : c = i + processedLen ∧ i + processedLen
                < data.length
            · rw [if_pos hcj, if_pos (by omega), hcj.1]
            · rw [if_neg hcj]
              rw [if_neg (by
                intro hcon
                rcases Nat.lt_or_ge c (i + processedLen + 1) with hlt | hge
                · have hce : c = i + processedLen := by omega
                  exact hcj ⟨hce, by omega⟩
                · exact hrel ⟨hge, hcon.2.1, by omega⟩)]
        · rw [if_neg hc]
          have hlen1 : (data.set i (releaseCell (data.getD i none))).length
              = dataLength := by
            rw [List.length_set]
            exact hlen
          have hpos1 : i + 1 ≤ cropStart ∨ cropStart + processedLen ≤ i + 1 := by
            omega
          rw [ih (i + 1) _ (by omega) hlen1 hpos1 c]
          by_cases hrel : i + 1 ≤ c ∧ c < dataLength ∧
              (c < cropStart ∨ cropStart + processedLen ≤ c)
          · rw [if_pos hrel, if_pos (by omega), getD_set,
              if_neg (by omega)]
          · rw [if_neg hrel, getD_set]
            by_cases hcj : c = i ∧ i < data.length
            · rw [if_pos hcj, if_pos (by omega), hcj.1]
            · rw [if_neg hcj]
              rw [if_neg (by
                intro hcon
                rcases Nat.lt_or_ge c (i + 1) with hlt | hge
                · have hce : c = i := by omega
                  exact hcj ⟨hce, by omega⟩
                · exact hrel ⟨hge, hcon.2.1, hcon.2.2⟩)]
      · rw [releaseLoop_stop _ _ _ _ _ hi, if_neg (by omega)]

/-- **C9.** After `generatePoints` on a non-grouped series (with the raw
options at least covering the processed window, and any pre-existing `data`
array of the documented length), `points.length ≤ data.length`,
`points.length` equals the processed length, and for every index `i` in the
processed range `points[i]` holds the same point state as
`data[cropStart + i]` with `index = cropStart + i`; every materialized point
at a position outside the processed window has its rendered state released
(`elementsDestroyed` and `plotX` cleared). -/
theorem generatePoints_spec (dataOptions : List (PointOpt K))
    (data0 : Option (List (Option (MPoint K)))) (pX : List K) (cropStart : Nat)
    (h0 : ∀ d, data0 = some d → d.length = dataOptions.length)
    (hcw : cropStart + pX.length ≤ dataOptions.length) :
    (generatePoints dataOptions data0 pX cropStart).2.length
        ≤ (generatePoints dataOptions data0 pX cropStart).1.length ∧
    (generatePoints dataOptions data0 pX cropStart).2.length = pX.length ∧
    (∀ i, i < pX.length →
      (generatePoints dataOptions data0 pX cropStart).2.getD i none
          = (generatePoints dataOptions data0 pX cropStart).1.getD
              (cropStart + i) none ∧
      ∀ p, (generatePoints dataOptions data0 pX cropStart).2.getD i none
          = some p → p.index = cropStart + i) ∧
    (∀ c, (c < cropStart ∨ cropStart + pX.length ≤ c) →
      ∀ p, (generatePoints dataOptions data0 pX cropStart).1.getD c none
          = some p → p.elementsDestroyed = true ∧ p.plotX = none) := by
  have hlen1 : (data0.getD (List.replicate dataOptions.length none)).length
      = dataOptions.length := by
    cases data0 with
    | none => simp
    | some d => simpa using h0 d rfl
  obtain ⟨g1, g2, g3⟩ := genLoop_spec dataOptions cropStart pX 0
    (data0.getD (List.replicate dataOptions.length none)) [] hlen1
  set glres := genLoop dataOptions cropStart (pX.enumFrom 0)
    (data0.getD (List.replicate dataOptions.length none)) [] with hglres
  have hsnd : (generatePoints dataOptions data0 pX cropStart).2 = glres.2 := by
    simp only [generatePoints, List.enum_eq_enumFrom, hglres]
  have hfst : (generatePoints dataOptions data0 pX cropStart).1 =
      if pX.length ≠ glres.1.length then
        releaseLoop cropStart pX.length glres.1.length 0 glres.1
      else glres.1 := by
    simp only [generatePoints, List.enum_eq_enumFrom, hglres]
  have hDL : glres.1.length = dataOptions.length := by
    rw [g1, hlen1]
  have hlen2 : glres.2.length = pX.length := by
    rw [g2]
    simp
  refine ⟨?_, ?_, ?_, ?_⟩
  · rw [hsnd, hfst, hlen2]
    by_cases hne : pX.length ≠ glres.1.length
    · rw [if_pos hne, releaseLoop_length _ _ _ glres.1.length 0 _ (by omega)]
      omega
    · rw [if_neg hne]
      exact (not_not.mp hne).le
  · rw [hsnd, hlen2]
  · intro i hi
    have hx : pX[i]? = some (pX.getD i 0) := by
      rw [List.getElem?_eq_getElem hi, List.getD_eq_getElem?_getD,
        List.getElem?_eq_getElem hi]
      rfl
    have hpts : glres.2.getD i none = genCell dataOptions
        (data0.getD (List.replicate dataOptions.length none))
        (cropStart + i) (pX.getD i 0) := by
      rw [g2, List.nil_append, List.getD_eq_getElem?_getD,
        List.getElem?_map, List.getElem?_enumFrom, hx]
      simp
    have hwin : glres.1.getD (cropStart + i) none = genCell dataOptions
        (data0.getD (List.replicate dataOptions.length none))
        (cropStart + i) (pX.getD i 0) := by
      rw [g3 (cropStart + i), if_pos (by omega)]
      have harith : cropStart + i - (cropStart + 0) = i := by omega
      rw [harith]
    have hdata : (generatePoints dataOptions data0 pX cropStart).1.getD
        (cropStart + i) none = genCell dataOptions
        (data0.getD (List.replicate dataOptions.length none))
        (cropStart + i) (pX.getD i 0) := by
      rw [hfst]
      by_cases hne : pX.length ≠ glres.1.length
      · rw [if_pos hne,
          releaseLoop_getD _ _ _ glres.1.length 0 _ (by omega) rfl
            (Or.inl (Nat.zero_le _)) (cropStart + i),
          if_neg (by omega), hwin]
      · rw [if_neg hne, hwin]
    refine ⟨?_, ?_⟩
    · rw [hsnd, hpts, hdata]
    · intro p hp
      rw [hsnd, hpts] at hp
      exact genCell_index _ _ _ _ p hp
  · intro c hc p hp
    by_cases hne : pX.length ≠ glres.1.length
    · rw [hfst, if_pos hne,
        releaseLoop_getD _ _ _ glres.1.length 0 _ (by omega) rfl
          (Or.inl (Nat.zero_le _)) c] at hp
      by_cases hcd : c < glres.1.length
      · rw [if_pos ⟨Nat.zero_le _, hcd, hc⟩] at hp
        rcases hq : glres.1.getD c none with _ | q
        · rw [hq] at hp
          exact absurd hp (by simp [releaseCell])
        · rw [hq] at hp
          simp only [releaseCell, Option.map_some'] at hp
          rw [← Option.some.inj hp]
          exact ⟨rfl, rfl⟩
      · rw [if_neg (by omega)] at hp
        exact absurd (getD_some_lt hp) hcd
    · have he : pX.length = glres.1.length := not_not.mp hne
      rw [hfst, if_neg hne] at hp
      have hlt := getD_some_lt hp
      omega

theorem generatePoints_spec_witness :
    (generatePoints [PointOpt.num (7 : ℤ)] (some [none]) [(5 : ℤ)] 0).2.length
        ≤ (generatePoints [PointOpt.num (7 : ℤ)] (some [none])
            [(5 : ℤ)] 0).1.length ∧
    (generatePoints [PointOpt.num (7 : ℤ)] (some [none]) [(5 : ℤ)] 0).2.length
        = [(5 : ℤ)].length ∧
    (∀ i, i < [(5 : ℤ)].length →
      (generatePoints [PointOpt.num (7 : ℤ)] (some [none])
          [(5 : ℤ)] 0).2.getD i none
        = (generatePoints [PointOpt.num (7 : ℤ)] (some [none])
            [(5 : ℤ)] 0).1.getD (0 + i) none ∧
      ∀ p, (generatePoints [PointOpt.num (7 : ℤ)] (some [none])
          [(5 : ℤ)] 0).2.getD i none = some p → p.index = 0 + i) ∧
    (∀ c, (c < 0 ∨ 0 + [(5 : ℤ)].length ≤ c) →
      ∀ p, (generatePoints [PointOpt.num (7 : ℤ)] (some [none])
          [(5 : ℤ)] 0).1.getD c none = some p →
        p.elementsDestroyed = true ∧ p.plotX = none) :=
  generatePoints_spec [PointOpt.num (7 : ℤ)] (some [none]) [(5 : ℤ)] 0
    (fun d h => by rw [← Option.some.inj h]; rfl) (by decide)

/-- The k-d comparator agrees with the axis order. -/
theorem kdCmp_le (dims depth : Nat) (a b : KDPoint K) :
    cmpLe (kdCmp dims depth) a b = true ↔
      kdAxisVal dims depth a ≤ kdAxisVal dims depth b := by
  simp only [cmpLe, kdCmp, decide_eq_true_eq]
  by_cases h1 : kdAxisVal dims depth a < kdAxisVal dims depth b
  · simp [h1, le_of_lt h1]
  · by_cases h2 : kdAxisVal dims depth b < kdAxisVal dims depth a
    · simp [h1, h2, not_le.mpr h2]
    · simp [h1, h2, le_of_not_lt h2]

/-- Sorting with the k-d comparator permutes the list. -/
theorem jsSort_kd_perm (dims depth : Nat) (l : List (KDPoint K)) :
    (jsSort (kdCmp dims depth) l).Perm l :=
  List.mergeSort_perm l _

/-- Sorting with the k-d comparator sorts by the depth axis. -/
theorem jsSort_kd_sorted (dims depth : Nat) (l : List (KDPoint K)) :
    (jsSort (kdCmp dims depth) l).Pairwise (fun a b =>
      kdAxisVal dims depth a ≤ kdAxisVal dims depth b) := by
  have hs := @List.sorted_mergeSort (KDPoint K) (cmpLe (kdCmp dims depth))
    (fun a b c hab hbc => (kdCmp_le dims depth a c).mpr
      (le_trans ((kdCmp_le dims depth a b).mp hab)
        ((kdCmp_le dims depth b c).mp hbc)))
    (fun a b => by
      rw [Bool.or_eq_true]
      rcases le_total (kdAxisVal dims depth a) (kdAxisVal dims depth b)
        with h | h
      · exact Or.inl ((kdCmp_le dims depth a b).mpr h)
      · exact Or.inr ((kdCmp_le dims depth b a).mpr h)) l
  exact List.Pairwise.imp_of_mem
    (fun ha hb hab => (kdCmp_le dims depth _ _).mp hab) hs

/-- Decomposing a list around a valid index. -/
theorem list_take_getD_drop (l : List α) (m : Nat) (d : α)
    (h : m < l.length) :
    l.take m ++ l.getD m d :: l.drop (m + 1) = l := by
  rw [List.getD_eq_getElem?_getD, List.getElem?_eq_getElem h,
    Option.getD_some, List.getElem_cons_drop l m h, List.take_append_drop]

/-- `_kdtree` on an empty slice. -/
theorem buildKDTreeRec_nil (dims depth : Nat) :
    buildKDTreeRec dims depth ([] : List (KDPoint K)) = .nil := by
  rw [buildKDTreeRec]

/-- One step of `_kdtree` on a non-empty slice. -/
theorem buildKDTreeRec_cons (dims depth : Nat) (pt : KDPoint K)
    (rest : List (KDPoint K)) :
    buildKDTreeRec dims depth (pt :: rest) =
      .node (buildKDTreeRec dims (depth + 1)
          ((jsSort (kdCmp dims depth) (pt :: rest)).take
            ((jsSort (kdCmp dims depth) (pt :: rest)).length / 2)))
        ((jsSort (kdCmp dims depth) (pt :: rest)).getD
          ((jsSort (kdCmp dims depth) (pt :: rest)).length / 2) ⟨0, 0⟩)
        (buildKDTreeRec dims (depth + 1)
          ((jsSort (kdCmp dims depth) (pt :: rest)).drop
            ((jsSort (kdCmp dims depth) (pt :: rest)).length / 2 + 1))) := by
  rw [buildKDTreeRec]

/-- The tree built by `_kdtree` stores exactly the input points. -/
theorem buildKDTreeRec_perm (dims : Nat) :
    ∀ (n : Nat) (pts : List (KDPoint K)) (depth : Nat), pts.length ≤ n →
      ((buildKDTreeRec dims depth pts).toList).Perm pts := by
  intro n
  induction n with
  | zero =>
      intro pts depth h
      have hnil : pts = [] := List.length_eq_zero.mp (Nat.le_zero.mp h)
      subst hnil
      rw [buildKDTreeRec_nil]
      exact List.Perm.refl _
  | succ n ih =>
      intro pts depth h
      cases pts with
      | nil =>
          rw [buildKDTreeRec_nil]
          exact List.Perm.refl _
      | cons pt rest =>
          simp only [List.length_cons] at h
          rw [buildKDTreeRec_cons]
          have hlen : (jsSort (kdCmp dims depth) (pt :: rest)).length
              = rest.length + 1 :=
            (jsSort_kd_perm dims depth (pt :: rest)).length_eq.trans
              (List.length_cons pt rest)
          have hmlt : (jsSort (kdCmp dims depth) (pt :: rest)).length / 2
              < (jsSort (kdCmp dims depth) (pt :: rest)).length := by
            omega
          have h1 := ih ((jsSort (kdCmp dims depth) (pt :: rest)).take
              ((jsSort (kdCmp dims depth) (pt :: rest)).length / 2))
            (depth + 1) (by rw [List.length_take]; omega)
          have h2 := ih ((jsSort (kdCmp dims depth) (pt :: rest)).drop
              ((jsSort (kdCmp dims depth) (pt :: rest)).length / 2 + 1))
            (depth + 1) (by rw [List.length_drop]; omega)
          simp only [KDTree.toList]
          have hX := List.Perm.append h1 (List.Perm.cons
            ((jsSort (kdCmp dims depth) (pt :: rest)).getD
              ((jsSort (kdCmp dims depth) (pt :: rest)).length / 2) ⟨0, 0⟩)
            h2)
          rw [list_take_getD_drop _ _ _ hmlt] at hX
          exact hX.trans (jsSort_kd_perm dims depth (pt :: rest))

/-- The tree built by `_kdtree` satisfies the splitting invariant. -/
theorem buildKDTreeRec_wf (dims : Nat) :
    ∀ (n : Nat) (pts : List (KDPoint K)) (depth : Nat), pts.length ≤ n →
      KDWF dims depth (buildKDTreeRec dims depth pts) := by
  intro n
  induction n with
  | zero =>
      intro pts depth h
      have hnil : pts = [] := List.length_eq_zero.mp (Nat.le_zero.mp h)
      subst hnil
      rw [buildKDTreeRec_nil]
      exact KDWF.nil _
  | succ n ih =>
      intro pts depth h
      cases pts with
      | nil =>
          rw [buildKDTreeRec_nil]
          exact KDWF.nil _
      | cons pt rest =>
          simp only [List.length_cons] at h
          rw [buildKDTreeRec_cons]
          have hlen : (jsSort (kdCmp dims depth) (pt :: rest)).length
              = rest.length + 1 :=
            (jsSort_kd_perm dims depth (pt :: rest)).length_eq.trans
              (List.length_cons pt rest)
          have hmlt : (jsSort (kdCmp dims depth) (pt :: rest)).length / 2
              < (jsSort (kdCmp dims depth) (pt :: rest)).length := by
            omega
          have hsorted := jsSort_kd_sorted dims depth (pt :: rest)
          rw [← list_take_getD_drop (jsSort (kdCmp dims depth) (pt :: rest))
            ((jsSort (kdCmp dims depth) (pt :: rest)).length / 2) ⟨0, 0⟩
            hmlt] at hsorted
          rw [List.pairwise_append] at hsorted
          obtain ⟨hp1, hp2, hcross⟩ := hsorted
          rw [List.pairwise_cons] at hp2
          refine KDWF.node _ _ _ _ ?_ ?_
            (ih _ (depth + 1) (by rw [List.length_take]; omega))
            (ih _ (depth + 1) (by rw [List.length_drop]; omega))
          · intro x hx
            have hx' : x ∈ (jsSort (kdCmp dims depth) (pt :: rest)).take
                ((jsSort (kdCmp dims depth) (pt :: rest)).length / 2) :=
              (buildKDTreeRec_perm dims n _ (depth + 1)
                (by rw [List.length_take]; omega)).subset hx
            exact hcross x hx' _ (List.mem_cons_self _ _)
          · intro x hx
            have hx' : x ∈ (jsSort (kdCmp dims depth) (pt :: rest)).drop
                ((jsSort (kdCmp dims depth) (pt :: rest)).length / 2 + 1) :=
              (buildKDTreeRec_perm dims n _ (depth + 1)
                (by rw [List.length_drop]; omega)).subset hx
            exact hp2.1 x hx'

/-- Unfolding `_search` at a node. -/
theorem searchKD_node (dims : Nat) (metric : KDPoint K → KDPoint K → K)
    (q p : KDPoint K) (l r : KDTree K) (d : Nat) :
    searchKD dims metric q (.node l p r) d = some (
      if (kdAxisVal dims d q - kdAxisVal dims d p) ^ 2 <
          metric q (kdBest metric q
            (if kdAxisVal dims d q - kdAxisVal dims d p < 0 then
              searchKD dims metric q l (d + 1)
            else searchKD dims metric q r (d + 1)) p) then
        kdBest metric q
          (if kdAxisVal dims d q - kdAxisVal dims d p < 0 then
            searchKD dims metric q r (d + 1)
          else searchKD dims metric q l (d + 1))
          (kdBest metric q
            (if kdAxisVal dims d q - kdAxisVal dims d p < 0 then
              searchKD dims metric q l (d + 1)
            else searchKD dims metric q r (d + 1)) p)
      else kdBest metric q
        (if kdAxisVal dims d q - kdAxisVal dims d p < 0 then
          searchKD dims metric q l (d + 1)
        else searchKD dims metric q r (d + 1)) p) := rfl

/-- What the candidate update guarantees: the result is the current best or
a member of the candidate subtree, it never gets worse, and it is at least
as good as everything the candidate minimizes over. -/
theorem kdBest_spec (metric : KDPoint K → KDPoint K → K) (q cur : KDPoint K)
    (cand : Option (KDPoint K)) (candL : List (KDPoint K))
    (hcand : (cand = none ∧ candL = []) ∨
      (∃ n, cand = some n ∧ n ∈ candL ∧
        ∀ x ∈ candL, metric q n ≤ metric q x)) :
    (kdBest metric q cand cur = cur ∨ kdBest metric q cand cur ∈ candL) ∧
    metric q (kdBest metric q cand cur) ≤ metric q cur ∧
    ∀ x ∈ candL, metric q (kdBest metric q cand cur) ≤ metric q x := by
  rcases hcand with ⟨h1, h2⟩ | ⟨n, h1, hmem, hmin⟩
  · subst h1
    subst h2
    exact ⟨Or.inl rfl, le_refl _, by simp⟩
  · subst h1
    simp only [kdBest]
    by_cases hc : metric q n < metric q cur
    · rw [if_pos hc]
      exact ⟨Or.inr hmem, le_of_lt hc, hmin⟩
    · rw [if_neg hc]
      exact ⟨Or.inl rfl, le_refl _,
        fun x hx => le_trans (not_lt.mp hc) (hmin x hx)⟩

/-- Inversion of the well-formedness invariant at a node. -/
theorem KDWF_node_inv {dims d : Nat} {l r : KDTree K} {p : KDPoint K}
    (h : KDWF dims d (.node l p r)) :
    (∀ x ∈ l.toList, kdAxisVal dims d x ≤ kdAxisVal dims d p) ∧
    (∀ x ∈ r.toList, kdAxisVal dims d p ≤ kdAxisVal dims d x) ∧
    KDWF dims (d + 1) l ∧ KDWF dims (d + 1) r := by
  cases h with
  | node _ _ _ _ h1 h2 w1 w2 => exact ⟨h1, h2, w1, w2⟩

/-- Correctness of `_search` on a well-formed tree, for any comparison
metric that dominates the squared distance to every splitting plane: the
result minimizes the metric over the stored points. -/
theorem searchKD_min (dims : Nat) (metric : KDPoint K → KDPoint K → K)
    (q : KDPoint K)
    (hm : ∀ (d : Nat) (p : KDPoint K),
      (kdAxisVal dims d q - kdAxisVal dims d p) ^ 2 ≤ metric q p) :
    ∀ (t : KDTree K) (d : Nat), KDWF dims d t →
      (searchKD dims metric q t d = none ∧ t.toList = []) ∨
      (∃ res, searchKD dims metric q t d = some res ∧ res ∈ t.toList ∧
        ∀ x ∈ t.toList, metric q res ≤ metric q x) := by
  intro t
  induction t with
  | nil =>
      intro d _
      exact Or.inl ⟨rfl, rfl⟩
  | node l p r ihl ihr =>
      intro d hwf
      right
      obtain ⟨hl, hr, wfl, wfr⟩ := KDWF_node_inv hwf
      by_cases ht : kdAxisVal dims d q - kdAxisVal dims d p < 0
      · have hfarBound : ∀ x ∈ r.toList,
            (kdAxisVal dims d q - kdAxisVal dims d p) ^ 2 ≤ metric q x := by
          intro x hx
          have h1 : kdAxisVal dims d q - kdAxisVal dims d x ≤
              kdAxisVal dims d q - kdAxisVal dims d p :=
            sub_le_sub_left (hr x hx) _
          have he0 : kdAxisVal dims d q - kdAxisVal dims d x < 0 :=
            lt_of_le_of_lt h1 ht
          have h2 : (kdAxisVal dims d q - kdAxisVal dims d p) ^ 2 ≤
              (kdAxisVal dims d q - kdAxisVal dims d x) ^ 2 := by
            have hs := sq_le_sq'
              (a := kdAxisVal dims d q - kdAxisVal dims d p)
              (b := -(kdAxisVal dims d q - kdAxisVal dims d x))
              (by rw [neg_neg]; exact h1)
              (le_of_lt (lt_of_lt_of_le ht
                (le_of_lt (neg_pos.mpr he0))))
            rw [neg_sq] at hs
            exact hs
          exact le_trans h2 (hm d x)
        obtain ⟨hb1mem, hb1le, hb1min⟩ := kdBest_spec metric q p
          (searchKD dims metric q l (d + 1)) l.toList (ihl (d + 1) wfl)
        by_cases hp : (kdAxisVal dims d q - kdAxisVal dims d p) ^ 2 <
            metric q (kdBest metric q (searchKD dims metric q l (d + 1)) p)
        · obtain ⟨hb2mem, hb2le, hb2min⟩ := kdBest_spec metric q
            (kdBest metric q (searchKD dims metric q l (d + 1)) p)
            (searchKD dims metric q r (d + 1)) r.toList (ihr (d + 1) wfr)
          refine ⟨kdBest metric q (searchKD dims metric q r (d + 1))
            (kdBest metric q (searchKD dims metric q l (d + 1)) p),
            ?_, ?_, ?_⟩
          · rw [searchKD_node, if_pos ht, if_pos ht, if_pos hp]
          · simp only [KDTree.toList, List.mem_append, List.mem_cons]
            rcases hb2mem with he | hmem
            · rcases hb1mem with he1 | hmem1
              · exact Or.inr (Or.inl (he.trans he1))
              · exact Or.inl (by rw [he]; exact hmem1)
            · exact Or.inr (Or.inr hmem)
          · intro x hx
            simp only [KDTree.toList, List.mem_append, List.mem_cons] at hx
            rcases hx with hx | rfl | hx
            · exact le_trans hb2le (hb1min x hx)
            · exact le_trans hb2le hb1le
            · exact hb2min x hx
        · refine ⟨kdBest metric q (searchKD dims metric q l (d + 1)) p,
            ?_, ?_, ?_⟩
          · rw [searchKD_node, if_pos ht, if_pos ht, if_neg hp]
          · simp only [KDTree.toList, List.mem_append, List.mem_cons]
            rcases hb1mem with he1 | hmem1
            · exact Or.inr (Or.inl he1)
            · exact Or.inl hmem1
          · intro x hx
            simp only [KDTree.toList, List.mem_append, List.mem_cons] at hx
            rcases hx with hx | rfl | hx
            · exact hb1min x hx
            · exact hb1le
            · exact le_trans (not_lt.mp hp) (hfarBound x hx)
      · have hfarBound : ∀ x ∈ l.toList,
            (kdAxisVal dims d q - kdAxisVal dims d p) ^ 2 ≤ metric q x := by
          intro x hx
          have h1 : kdAxisVal dims d q - kdAxisVal dims d p ≤
              kdAxisVal dims d q - kdAxisVal dims d x :=
            sub_le_sub_left (hl x hx) _
          have h2 : (kdAxisVal dims d q - kdAxisVal dims d p) ^ 2 ≤
              (kdAxisVal dims d q - kdAxisVal dims d x) ^ 2 :=
            pow_le_pow_left₀ (not_lt.mp ht) h1 2
          exact le_trans h2 (hm d x)
        obtain ⟨hb1mem, hb1le, hb1min⟩ := kdBest_spec metric q p
          (searchKD dims metric q r (d + 1)) r.toList (ihr (d + 1) wfr)
        by_cases hp : (kdAxisVal dims d q - kdAxisVal dims d p) ^ 2 <
            metric q (kdBest metric q (searchKD dims metric q r (d + 1)) p)
        · obtain ⟨hb2mem, hb2le, hb2min⟩ := kdBest_spec metric q
            (kdBest metric q (searchKD dims metric q r (d + 1)) p)
            (searchKD dims metric q l (d + 1)) l.toList (ihl (d + 1) wfl)
          refine ⟨kdBest metric q (searchKD dims metric q l (d + 1))
            (kdBest metric q (searchKD dims metric q r (d + 1)) p),
            ?_, ?_, ?_⟩
          · rw [searchKD_node, if_neg ht, if_neg ht, if_pos hp]
          · simp only [KDTree.toList, List.mem_append, List.mem_cons]
            rcases hb2mem with he | hmem
            · rcases hb1mem with he1 | hmem1
              · exact Or.inr (Or.inl (he.trans he1))
              · exact Or.inr (Or.inr (by rw [he]; exact hmem1))
            · exact Or.inl hmem
          · intro x hx
            simp only [KDTree.toList, List.mem_append, List.mem_cons] at hx
            rcases hx with hx | rfl | hx
            · exact hb2min x hx
            · exact le_trans hb2le hb1le
            · exact le_trans hb2le (hb1min x hx)
        · refine ⟨kdBest metric q (searchKD dims metric q r (d + 1)) p,
            ?_, ?_, ?_⟩
          · rw [searchKD_node, if_neg ht, if_neg ht, if_neg hp]
          · simp only [KDTree.toList, List.mem_append, List.mem_cons]
            rcases hb1mem with he1 | hmem1
            · exact Or.inr (Or.inl he1)
            · exact Or.inr (Or.inr hmem1)
          · intro x hx
            simp only [KDTree.toList, List.mem_append, List.mem_cons] at hx
            rcases hx with hx | rfl | hx
            · exact le_trans (not_lt.mp hp) (hfarBound x hx)
            · exact hb1le
            · exact hb1min x hx

/-- The full squared distance dominates the squared distance to any
splitting plane. -/
theorem distSq_bound (dims d : Nat) (q p : KDPoint K) :
    (kdAxisVal dims d q - kdAxisVal dims d p) ^ 2 ≤ distSq q p := by
  unfold kdAxisVal distSq
  by_cases h : d % dims = 0
  · rw [if_pos h, if_pos h]
    exact le_add_of_nonneg_right (sq_nonneg _)
  · rw [if_neg h, if_neg h]
    exact le_add_of_nonneg_left (sq_nonneg _)

/-- In one dimension the only axis is the x axis, so the squared x distance
equals the squared distance to the splitting plane. -/
theorem distXSq_bound_one (d : Nat) (q p : KDPoint K) :
    (kdAxisVal 1 d q - kdAxisVal 1 d p) ^ 2 ≤ distXSq q p := by
  unfold kdAxisVal distXSq
  rw [if_pos (Nat.mod_one d), if_pos (Nat.mod_one d)]

/-- Building a k-d tree and searching it returns a minimizer of the metric
over the input points, for any metric dominating the splitting-plane
distances. -/
theorem searchKDTree_build_min (dims : Nat)
    (metric : KDPoint K → KDPoint K → K) (q : KDPoint K)
    (hm : ∀ (d : Nat) (p : KDPoint K),
      (kdAxisVal dims d q - kdAxisVal dims d p) ^ 2 ≤ metric q p)
    (pts : List (KDPoint K)) (hne : pts ≠ []) :
    ∃ res, searchKDTree dims metric q (buildKDTree dims pts) = some res ∧
      res ∈ pts ∧ ∀ x ∈ pts, metric q res ≤ metric q x := by
  have hperm : ((buildKDTree dims pts).toList).Perm pts :=
    buildKDTreeRec_perm dims pts.length pts dims (le_refl _)
  have hwf : KDWF dims dims (buildKDTree dims pts) :=
    buildKDTreeRec_wf dims pts.length pts dims (le_refl _)
  rcases searchKD_min dims metric q hm (buildKDTree dims pts) dims hwf with
    ⟨h1, h2⟩ | ⟨res, h1, h2, h3⟩
  · rw [h2] at hperm
    exact absurd hperm.symm.eq_nil hne
  · exact ⟨res, h1, hperm.subset h2,
      fun x hx => h3 x (hperm.mem_iff.mpr hx)⟩

/-- **C5.** (amended) For every non-empty point set and every query,
`searchKDTree` over the tree built by `buildKDTree` returns a point that
minimizes the comparison metric the code actually uses: the full Euclidean
distance (`dist`) in 2-D mode and also in 1-D mode when `compareX` is not
set, and the x-only distance (`distX`) in 1-D mode with `compareX`.  (The
original claim that 1-D mode compares by absolute x distance, and that
`compareX` yields the `distX` minimizer in 2-D mode as well, is refuted by
the counterexample.) -/
theorem searchKDTree_nearest (pts : List (KDPoint K)) (q : KDPoint K)
    (hne : pts ≠ []) :
    (∃ res, searchKDTree 2 distSq q (buildKDTree 2 pts) = some res ∧
      res ∈ pts ∧ ∀ x ∈ pts, distSq q res ≤ distSq q x) ∧
    (∃ res, searchKDTree 1 distSq q (buildKDTree 1 pts) = some res ∧
      res ∈ pts ∧ ∀ x ∈ pts, distSq q res ≤ distSq q x) ∧
    (∃ res, searchKDTree 1 distXSq q (buildKDTree 1 pts) = some res ∧
      res ∈ pts ∧ ∀ x ∈ pts, distXSq q res ≤ distXSq q x) :=
  ⟨searchKDTree_build_min 2 distSq q (fun d p => distSq_bound 2 d q p)
     pts hne,
   searchKDTree_build_min 1 distSq q (fun d p => distSq_bound 1 d q p)
     pts hne,
   searchKDTree_build_min 1 distXSq q (fun d p => distXSq_bound_one d q p)
     pts hne⟩

theorem searchKDTree_nearest_witness :
    (∃ res, searchKDTree 2 distSq (⟨0, 0⟩ : KDPoint ℤ)
        (buildKDTree 2 [⟨1, 2⟩]) = some res ∧
      res ∈ [(⟨1, 2⟩ : KDPoint ℤ)] ∧
      ∀ x ∈ [(⟨1, 2⟩ : KDPoint ℤ)], distSq ⟨0, 0⟩ res ≤ distSq ⟨0, 0⟩ x) ∧
    (∃ res, searchKDTree 1 distSq (⟨0, 0⟩ : KDPoint ℤ)
        (buildKDTree 1 [⟨1, 2⟩]) = some res ∧
      res ∈ [(⟨1, 2⟩ : KDPoint ℤ)] ∧
      ∀ x ∈ [(⟨1, 2⟩ : KDPoint ℤ)], distSq ⟨0, 0⟩ res ≤ distSq ⟨0, 0⟩ x) ∧
    (∃ res, searchKDTree 1 distXSq (⟨0, 0⟩ : KDPoint ℤ)
        (buildKDTree 1 [⟨1, 2⟩]) = some res ∧
      res ∈ [(⟨1, 2⟩ : KDPoint ℤ)] ∧
      ∀ x ∈ [(⟨1, 2⟩ : KDPoint ℤ)],
        distXSq ⟨0, 0⟩ res ≤ distXSq ⟨0, 0⟩ x) :=
  searchKDTree_nearest [(⟨1, 2⟩ : KDPoint ℤ)] ⟨0, 0⟩
    (List.cons_ne_nil _ _)

/-- Counterexample to C5 as stated: in 1-D mode without `compareX` the
search compares by full distance, not by absolute x distance — on points
(0,100) and (3,0) with query (1,0) it returns (3,0) although (0,100) is
strictly nearer in x; and in 2-D mode with `compareX` the y-axis pruning is
unsound for the x-only metric — on the seven points below with query (0,0)
it returns (2,10) although (1,100) is strictly nearer in x. -/
theorem searchKDTree_nearest_counterexample :
    (searchKDTree 1 distSq (⟨1, 0⟩ : KDPoint ℤ)
        (buildKDTree 1 [⟨0, 100⟩, ⟨3, 0⟩]) = some ⟨3, 0⟩ ∧
      (⟨0, 100⟩ : KDPoint ℤ) ∈ [(⟨0, 100⟩ : KDPoint ℤ), ⟨3, 0⟩] ∧
      distXSq (⟨1, 0⟩ : KDPoint ℤ) ⟨0, 100⟩ <
        distXSq (⟨1, 0⟩ : KDPoint ℤ) ⟨3, 0⟩) ∧
    (searchKDTree 2 distXSq (⟨0, 0⟩ : KDPoint ℤ)
        (buildKDTree 2 [⟨1, 100⟩, ⟨2, 10⟩, ⟨3, 0⟩, ⟨4, 0⟩, ⟨5, 0⟩,
          ⟨6, 0⟩, ⟨7, 0⟩]) = some ⟨2, 10⟩ ∧
      (⟨1, 100⟩ : KDPoint ℤ) ∈ [(⟨1, 100⟩ : KDPoint ℤ), ⟨2, 10⟩, ⟨3, 0⟩,
        ⟨4, 0⟩, ⟨5, 0⟩, ⟨6, 0⟩, ⟨7, 0⟩] ∧
      distXSq (⟨0, 0⟩ : KDPoint ℤ) ⟨1, 100⟩ <
        distXSq (⟨0, 0⟩ : KDPoint ℤ) ⟨2, 10⟩) := by
  have hT1 : buildKDTree 1 [(⟨0, 100⟩ : KDPoint ℤ), ⟨3, 0⟩] =
      .node (.node .nil ⟨0, 100⟩ .nil) ⟨3, 0⟩ .nil := by
    simp [buildKDTree, buildKDTreeRec_cons, buildKDTreeRec_nil, jsSort,
      List.mergeSort, List.splitInTwo, List.merge, cmpLe, kdCmp, kdAxisVal]
  have hT2 : buildKDTree 2 [(⟨1, 100⟩ : KDPoint ℤ), ⟨2, 10⟩, ⟨3, 0⟩,
      ⟨4, 0⟩, ⟨5, 0⟩, ⟨6, 0⟩, ⟨7, 0⟩] =
      .node (.node (.node .nil ⟨3, 0⟩ .nil) ⟨2, 10⟩
          (.node .nil ⟨1, 100⟩ .nil)) ⟨4, 0⟩
        (.node (.node .nil ⟨5, 0⟩ .nil) ⟨6, 0⟩ (.node .nil ⟨7, 0⟩ .nil)) := by
    simp [buildKDTree, buildKDTreeRec_cons, buildKDTreeRec_nil, jsSort,
      List.mergeSort, List.splitInTwo, List.merge, cmpLe, kdCmp, kdAxisVal]
  refine ⟨⟨?_, by decide, by decide⟩, ⟨?_, by decide, by decide⟩⟩
  · rw [hT1]
    decide
  · rw [hT2]
    decide

end HC
